import Mathlib

/-!
A shallow embedding of the random-dice subsystem of gnubg (`dice.c`) and a
verification of its key behavioural properties.

Conventions of the embedding:
* GMP arbitrary-precision integers (`mpz_t`) become `Nat` (they are kept
  non-negative everywhere they are used modularly) or `Int` where the source
  manipulates possibly-negative parsed values.
* The external pseudo-random cores (ISAAC's `irand`, SFMT's
  `sfmt_genrand_uint32`), the MD5 digest, the manual-dice dialog and the
  random.org client live outside this file's source; they are modelled from
  the spec as opaque deterministic functions carried in an `RngEnv`.
* C `while` loops without a static bound become fuel-indexed recursions
  returning `Option`; `none` models divergence of the C loop.
-/

/-! ### Rejection-sampling constants (RollDice, dice.c lines 765-766) -/

/-- `exp232_q = 715827882`, the constant `q = floor(2^32 / 6)` from `RollDice`. -/
def exp232_q : Nat := 715827882

/-- `exp232_l = 4294967292`, the constant `6 * q` from `RollDice`. -/
def exp232_l : Nat := 4294967292

/-- The rejection loop `while ((tmprnd = gen()) >= exp232_l);` over an abstract
raw 32-bit output stream `f`: starting at stream position `i`, return the
position of the first draw strictly below `exp232_l`.  `fuel` bounds the
search; `none` models a diverging loop. -/
def findAccept (f : Nat → Nat) : Nat → Nat → Option Nat
  | 0, _ => none
  | fuel + 1, i => if exp232_l ≤ f i then findAccept f fuel (i + 1) else some i

/-- The die obtained from an accepted raw draw: `1 + tmprnd / exp232_q`. -/
def dieOf (r : Nat) : Nat := 1 + r / exp232_q

/-! ### Generator kinds (`rng` enumeration) -/

/-- The generator kinds of `dice.h` / `dice.c`. -/
inductive Rng where
  | RNG_BBS
  | RNG_ISAAC
  | RNG_MD5
  | RNG_MERSENNE
  | RNG_MANUAL
  | RNG_RANDOM_DOT_ORG
  | RNG_FILE
  deriving DecidableEq

open Rng

/-! ### External collaborators, modelled from the spec -/

/-- External entropy/input sources used by `RollDice` whose code is not part
of `dice.c`.

* `isaacF` — Modelled from the spec: the ISAAC stream cipher's raw 32-bit
  output sequence, a deterministic function of the seed installed by
  `InitRNGSeed` (`irandinit` over `randrsl` filled with the seed).
* `sfmtF` — Modelled from the spec: the Mersenne-Twister (SFMT) raw 32-bit
  output sequence, a deterministic function of the seed
  (`sfmt_init_gen_rand`).
* `md5F` — Modelled from the spec: the two 32-bit halves of the 128-bit MD5
  digest of the current 32-bit counter seed (`md5_buffer` over `nMD5`).
* `manualDice` / `manualRet` — Modelled from the spec: the dice supplied by
  the external manual-entry dialog `GetManualDice` and its return value.
* `randomOrgF` — Modelled from the spec: successive values returned by
  `getDiceRandomDotOrg`, non-positive (here: `0`) meaning failure.
* `fileBytes` — the contents of the open dice file; `none` models
  `fDice == NULL`. -/
structure RngEnv where
  isaacF : Nat → Nat → Nat
  sfmtF : Nat → Nat → Nat
  md5F : Nat → Nat × Nat
  manualDice : Nat × Nat
  manualRet : Int
  randomOrgF : Nat → Nat
  fileBytes : Option (List Nat)

/-- The mutable generator context (`struct rngcontext`).  Stream positions
(`isaacPos`, `sfmtPos`, `rdoPos`) model the internal progress of the external
generator states; `filePos`/`fileBad` model the `FILE*` read position and
error flag of `fDice`. -/
structure RngContext where
  filePos : Nat
  fileBad : Bool
  isaacSeed : Nat
  isaacPos : Nat
  nMD5 : Nat
  sfmtSeed : Nat
  sfmtPos : Nat
  zModulus : Nat
  zSeed : Nat
  rdoPos : Nat
  c : Nat
  n : Nat
  deriving DecidableEq

/-! ### The BBS engine (dice.c lines 120-345) -/

/-- `BBSCheck`: `-1` iff the stored seed equals `0` or `1`. -/
def BBSCheck (zSeed : Nat) : Int := if zSeed = 0 ∨ zSeed = 1 then -1 else 0

/-- One modular squaring `mpz_powm_ui(z, z, 2, M)`. -/
def bbsSq (M z : Nat) : Nat := z * z % M

/-- `BBSGetBit`: square the seed modulo the modulus and emit the low bit of
the new seed.  Returns `(bit, new seed)`. -/
def BBSGetBit (M s : Nat) : Nat × Nat := (s * s % M % 2, s * s % M)

/-- One transition of the 5-state trit automaton of `BBSGetTrit`: either move
to a new state or return a trit.  States `≥ 5` have no `case` in the C
`switch`, so the loop never leaves them. -/
inductive TritStep where
  | toState : Nat → TritStep
  | ret : Nat → TritStep
  deriving DecidableEq

/-- The transition table of `BBSGetTrit` (dice.c lines 246-280), one new bit
per transition. -/
def bbsTritStep : Nat → Bool → TritStep
  | 0, b => .toState (if b then 2 else 1)
  | 1, b => if b then .toState 3 else .ret 0
  | 2, b => if b then .ret 2 else .toState 4
  | 3, b => if b then .ret 1 else .toState 1
  | 4, b => if b then .toState 2 else .ret 1
  | s + 5, _ => .toState (s + 5)

/-- The trit automaton driven by an explicit list of input bits (one bit
consumed per transition); `none` when the list is exhausted before a trit is
returned. -/
def bbsTritRunBits : Nat → List Bool → Option Nat
  | _, [] => none
  | s, b :: bs =>
    match bbsTritStep s b with
    | .ret t => some t
    | .toState s' => bbsTritRunBits s' bs

/-- `BBSGetTrit`: the trit automaton driven by the hard-core bits of the
squaring generator, threading the seed.  Returns `(trit, new seed)`; `fuel`
bounds the loop. -/
def BBSGetTrit (M : Nat) : Nat → Nat → Nat → Option (Nat × Nat)
  | 0, _, _ => none
  | fuel + 1, state, s =>
    let bs := BBSGetBit M s
    match bbsTritStep state (bs.1 == 1) with
    | .ret t => some (t, bs.2)
    | .toState state' => BBSGetTrit M fuel state' bs.2

/-- Whether the inner loop of `BBSCheckInitialSeed` detects a short cycle:
square the seed 8 times to a reference point, then up to 16 further squarings
looking for recurrence of the reference. -/
def bbsShortCycle (M s : Nat) : Bool :=
  (List.range 16).any fun i => (bbsSq M)^[i + 1] ((bbsSq M)^[8] s) == (bbsSq M)^[8] s

/-- The attempt loop of `BBSCheckInitialSeed`: up to 32 attempts, incrementing
the seed after each failed attempt.  Returns `(return value, stored seed)`;
exhaustion is `BBSInitialSeedFailure`, which stores seed `0` and returns `-1`. -/
def bbsAttemptLoop (M : Nat) : Nat → Nat → Int × Nat
  | 0, _ => (-1, 0)
  | a + 1, s => if bbsShortCycle M s then bbsAttemptLoop M a (s + 1) else (0, s)

/-- `BBSCheckInitialSeed` (dice.c lines 302-344): a non-positive seed is an
immediate `BBSInitialSeedFailure` (seed stored as `0`, return `-1`);
otherwise run the 32-attempt loop. -/
def BBSCheckInitialSeed (M s : Nat) : Int × Nat :=
  if s = 0 then (-1, 0) else bbsAttemptLoop M 32 s

/-! ### BBS factor validation (dice.c lines 150-226), over parsed integers -/

/-- Executable trial-division primality test, modelling
`mpz_probab_prime_p(x, 10)` (idealised as exact primality). -/
def isPrimeB (n : Nat) : Bool :=
  decide (2 ≤ n) && (List.range n).all fun d => decide (d < 2) || decide (¬ d ∣ n)

/-- `BBSGood`: a factor is good iff its low two bits are `11`
(`mpz_get_ui(x) & 3` is the absolute value's residue), it is at least 19
(signed comparison), and it passes the primality test. -/
def BBSGood (x : Int) : Bool :=
  (x.natAbs % 4 == 3) && decide ((19 : Int) ≤ x) && isPrimeB x.natAbs

/-- `BBSFindGood`: increment, then retest, until a good factor is found
(`do ... while`); `fuel` bounds the search. -/
def BBSFindGood : Nat → Int → Option Int
  | 0, _ => none
  | fuel + 1, x => if BBSGood (x + 1) then some (x + 1) else BBSFindGood fuel (x + 1)

/-- The second-factor fixup in `InitRNGBBSFactors`: if the parsed `q` is not
good, or equals the (already fixed) `p`, search upward; if the search lands
on `p`, search upward once more. -/
def fixupQ (fuel : Nat) (p q : Int) : Option Int :=
  if !BBSGood q || (p == q) then
    match BBSFindGood fuel q with
    | none => none
    | some q1 => if p == q1 then BBSFindGood fuel q1 else some q1
  else some q

/-- The outcome of `InitRNGBBSFactors`: `fail` is the `-1` return (nothing
stored), `done p q` is the `0` return after storing `zModulus = p * q`. -/
inductive FactorsOut where
  | fail : FactorsOut
  | done : Int → Int → FactorsOut
  deriving DecidableEq

/-- `InitRNGBBSFactors` (dice.c lines 176-226) over parsed inputs: `none`
stands for an unparsable/null string.  Note the second sign test repeats
`mpz_sgn(p) < 1` instead of testing `q` (dice.c line 191).  The outer
`Option` is `none` only when a `BBSFindGood` search runs out of fuel. -/
def InitRNGBBSFactors (fuel : Nat) (sz0 sz1 : Option Int) : Option FactorsOut :=
  match sz0 with
  | none => some .fail
  | some p0 =>
    if p0 < 1 then some .fail
    else
      match sz1 with
      | none => some .fail
      | some q0 =>
        if p0 < 1 then some .fail
        else
          match (if BBSGood p0 then some p0 else BBSFindGood fuel p0) with
          | none => none
          | some p1 =>
            match fixupQ fuel p1 q0 with
            | none => none
            | some q1 => some (.done p1 q1)

/-! ### The dice file reader (dice.c lines 865-894) -/

/-- The sentinel `(unsigned int) (-1)` returned by `ReadDiceFile` on error. -/
def diceSentinel : Nat := 4294967295

/-- The `uglyloop` of `ReadDiceFile` over the file bytes: a read in the error
state (`fileBad`, modelling `ferror`) fails without `feof` and yields the
sentinel; a read at end of file rewinds to position 0 and continues; a byte
in ASCII `'1'..'6'` yields the face `byte - '0'`; any other byte is skipped.
Returns `(value, new position)`; `none` models divergence (e.g. a file with
no valid byte). -/
def readDiceLoop (bytes : List Nat) : Nat → Nat → Bool → Option (Nat × Nat)
  | 0, _, _ => none
  | fuel + 1, pos, bad =>
    if bad then some (diceSentinel, pos)
    else if h : pos < bytes.length then
      let uch := bytes.get ⟨pos, h⟩
      if 49 ≤ uch ∧ uch ≤ 54 then some (uch - 48, pos + 1)
      else readDiceLoop bytes fuel (pos + 1) bad
    else readDiceLoop bytes fuel 0 bad

/-- `ReadDiceFile`: `fDice == NULL` yields the sentinel immediately,
otherwise run the read loop from the current position. -/
def ReadDiceFile (env : RngEnv) (fuel : Nat) (ctx : RngContext) :
    Option (Nat × RngContext) :=
  match env.fileBytes with
  | none => some (diceSentinel, ctx)
  | some bytes =>
    match readDiceLoop bytes fuel ctx.filePos ctx.fileBad with
    | none => none
    | some vp => some (vp.1, { ctx with filePos := vp.2 })

/-! ### The MD5 backend (RollDice, dice.c lines 797-816) -/

/-- Rejection condition for an MD5 digest pair: either 32-bit half is at
least `exp232_l`. -/
def md5Reject (h : Nat × Nat) : Prop := exp232_l ≤ h.1 ∨ exp232_l ≤ h.2

instance decMd5Reject (h : Nat × Nat) : Decidable (md5Reject h) :=
  inferInstanceAs (Decidable (exp232_l ≤ h.1 ∨ exp232_l ≤ h.2))

/-- The retry loop of the MD5 case: while the digest pair `h` is rejected,
recompute the digest from the current seed `s` and only then increment `s`
(the order of `md5_buffer(...)` and `rngctx->nMD5++` in the loop body).
Returns the accepted digest pair and the seed counter after the loop. -/
def md5Loop (f : Nat → Nat × Nat) : Nat → Nat × Nat → Nat → Option ((Nat × Nat) × Nat)
  | 0, h, s => if md5Reject h then none else some (h, s)
  | fuel + 1, h, s =>
    if md5Reject h then md5Loop f fuel (f s) (s + 1) else some (h, s)

/-- The seeds passed to the digest function by the bodies of the retry loop
(in order), for the same run as `md5Loop`. -/
def md5LoopCalls (f : Nat → Nat × Nat) : Nat → Nat × Nat → Nat → List Nat
  | 0, _, _ => []
  | fuel + 1, h, s =>
    if md5Reject h then s :: md5LoopCalls f fuel (f s) (s + 1) else []

/-- The full MD5 case of `RollDice`: digest the current seed, run the retry
loop, produce the two dice from the accepted halves, and increment the seed
once more. -/
def rollMD5 (env : RngEnv) (fuel : Nat) (ctx : RngContext) :
    Option (RngContext × (Nat × Nat)) :=
  match md5Loop env.md5F fuel (env.md5F ctx.nMD5) ctx.nMD5 with
  | none => none
  | some hs =>
    some ({ ctx with nMD5 := hs.2 + 1, c := ctx.c + 2 },
      (dieOf hs.1.1, dieOf hs.1.2))

/-! ### The remaining backend cases of RollDice -/

/-- The ISAAC case: two rejection-sampled draws from the ISAAC stream. -/
def rollISAAC (env : RngEnv) (fuel : Nat) (ctx : RngContext) :
    Option (RngContext × (Nat × Nat)) :=
  match findAccept (env.isaacF ctx.isaacSeed) fuel ctx.isaacPos with
  | none => none
  | some j0 =>
    match findAccept (env.isaacF ctx.isaacSeed) fuel (j0 + 1) with
    | none => none
    | some j1 =>
      some ({ ctx with isaacPos := j1 + 1, c := ctx.c + 2 },
        (dieOf (env.isaacF ctx.isaacSeed j0), dieOf (env.isaacF ctx.isaacSeed j1)))

/-- The Mersenne-Twister case: two rejection-sampled draws from the SFMT
stream. -/
def rollMersenne (env : RngEnv) (fuel : Nat) (ctx : RngContext) :
    Option (RngContext × (Nat × Nat)) :=
  match findAccept (env.sfmtF ctx.sfmtSeed) fuel ctx.sfmtPos with
  | none => none
  | some j0 =>
    match findAccept (env.sfmtF ctx.sfmtSeed) fuel (j0 + 1) with
    | none => none
    | some j1 =>
      some ({ ctx with sfmtPos := j1 + 1, c := ctx.c + 2 },
        (dieOf (env.sfmtF ctx.sfmtSeed j0), dieOf (env.sfmtF ctx.sfmtSeed j1)))

/-- The BBS case: a failing `BBSCheck` is `BBSInitialSeedFailure` (seed
stored as `0`) and leaves the dice at their initial `(0, 0)`; otherwise each
die is `trit + bit * 3 + 1` from the trit automaton plus one further
hard-core bit. -/
def rollBBS (fuel : Nat) (ctx : RngContext) : Option (RngContext × (Nat × Nat)) :=
  if BBSCheck ctx.zSeed = -1 then some ({ ctx with zSeed := 0 }, (0, 0))
  else
    match BBSGetTrit ctx.zModulus fuel 0 ctx.zSeed with
    | none => none
    | some t0s =>
      let b0s := BBSGetBit ctx.zModulus t0s.2
      match BBSGetTrit ctx.zModulus fuel 0 b0s.2 with
      | none => none
      | some t1s =>
        let b1s := BBSGetBit ctx.zModulus t1s.2
        some ({ ctx with zSeed := b1s.2, c := ctx.c + 2 },
          (t0s.1 + b0s.1 * 3 + 1, t1s.1 + b1s.1 * 3 + 1))

/-- The random.org case: one request per die, except that a failed (non
positive) first request is duplicated into the second die. -/
def rollRDO (env : RngEnv) (ctx : RngContext) : RngContext × (Nat × Nat) :=
  let d0 := env.randomOrgF ctx.rdoPos
  if 0 < d0 then
    ({ ctx with rdoPos := ctx.rdoPos + 2 }, (d0, env.randomOrgF (ctx.rdoPos + 1)))
  else
    ({ ctx with rdoPos := ctx.rdoPos + 1 }, (d0, d0))

/-- The file case: two reads, then `c += 2`. -/
def rollFile (env : RngEnv) (fuel : Nat) (ctx : RngContext) :
    Option (RngContext × (Nat × Nat)) :=
  match ReadDiceFile env fuel ctx with
  | none => none
  | some v0c =>
    match ReadDiceFile env fuel v0c.2 with
    | none => none
    | some v1c => some ({ v1c.2 with c := v1c.2.c + 2 }, (v0c.1, v1c.1))

/-- The `switch (*prng)` of `RollDice`, producing the raw pair before the
range check.  (`RNG_MANUAL` is handled separately by `RollDice` because it
returns before the check.) -/
def rollBackend (env : RngEnv) (fuel : Nat) : Rng → RngContext → Option (RngContext × (Nat × Nat))
  | RNG_BBS, ctx => rollBBS fuel ctx
  | RNG_ISAAC, ctx => rollISAAC env fuel ctx
  | RNG_MD5, ctx => rollMD5 env fuel ctx
  | RNG_MERSENNE, ctx => rollMersenne env fuel ctx
  | RNG_MANUAL, ctx => some (ctx, env.manualDice)
  | RNG_RANDOM_DOT_ORG, ctx => some (rollRDO env ctx)
  | RNG_FILE, ctx => rollFile env fuel ctx

/-- The final range check of `RollDice`: both dice within `[1, 6]`. -/
def diceOk (d : Nat × Nat) : Prop := 1 ≤ d.1 ∧ d.1 ≤ 6 ∧ 1 ≤ d.2 ∧ d.2 ≤ 6

instance decDiceOk (d : Nat × Nat) : Decidable (diceOk d) :=
  inferInstanceAs (Decidable (1 ≤ d.1 ∧ d.1 ≤ 6 ∧ 1 ≤ d.2 ∧ d.2 ≤ 6))

/-- The outcome of one `RollDice` call: the (possibly substituted) active
kind, the updated context, the dice pair, the C return value and the number
of fallback substitutions performed. -/
structure RollResult where
  rng : Rng
  ctx : RngContext
  dice : Nat × Nat
  ret : Int
  substs : Nat
  deriving DecidableEq

/-- `RollDice` (dice.c lines 761-854).  `RNG_MANUAL` returns
`GetManualDice`'s value before the range check; every other kind runs its
backend case and then the check `anDice[i] < 1 || anDice[i] > 6`, on failure
switching the active kind to `RNG_MERSENNE` (`SetRNG`, modelled from the
spec as switching the active kind) and calling itself again, discarding the
recursive return value and returning `0`.  `recFuel` bounds the recursion
depth; `drawFuel` bounds the inner loops. -/
def RollDice (env : RngEnv) (drawFuel : Nat) : Nat → Rng → RngContext → Option RollResult
  | 0, _, _ => none
  | recFuel + 1, rngx, ctx =>
    if rngx = RNG_MANUAL then some ⟨rngx, ctx, env.manualDice, env.manualRet, 0⟩
    else
      match rollBackend env drawFuel rngx ctx with
      | none => none
      | some cd =>
        if diceOk cd.2 then some ⟨rngx, cd.1, cd.2, 0, 0⟩
        else
          match RollDice env drawFuel recFuel RNG_MERSENNE cd.1 with
          | none => none
          | some res => some ⟨res.rng, res.ctx, res.dice, 0, res.substs + 1⟩

/-! ### Seeding (dice.c lines 457-505) -/

/-- `InitRNGSeed`: store `n`, reset the counter, and initialise the selected
backend's state from `n` (for BBS, install the seed and run the initial-seed
quality check; `RNG_MANUAL`, `RNG_RANDOM_DOT_ORG` and `RNG_FILE` are
no-ops). -/
def InitRNGSeed (n : Nat) (rngx : Rng) (ctx : RngContext) : RngContext :=
  let ctx1 := { ctx with n := n, c := 0 }
  match rngx with
  | RNG_BBS => { ctx1 with zSeed := (BBSCheckInitialSeed ctx1.zModulus n).2 }
  | RNG_ISAAC => { ctx1 with isaacSeed := n, isaacPos := 0 }
  | RNG_MD5 => { ctx1 with nMD5 := n }
  | RNG_MERSENNE => { ctx1 with sfmtSeed := n, sfmtPos := 0 }
  | _ => ctx1

/-- The dice pairs of `rounds` successive `RollDice` calls, threading the
(kind, context) evolution, including any fallback substitution. -/
def rollSeqDice (env : RngEnv) (drawFuel recFuel : Nat) :
    Nat → Rng → RngContext → Option (List (Nat × Nat))
  | 0, _, _ => some []
  | rounds + 1, rngx, ctx =>
    match RollDice env drawFuel recFuel rngx ctx with
    | none => none
    | some res =>
      match rollSeqDice env drawFuel recFuel rounds res.rng res.ctx with
      | none => none
      | some l => some (res.dice :: l)

/-! ### Counting runs of the trit automaton over all bit strings -/

/-- All bit strings of length `n`. -/
def binLists : Nat → List (List Bool)
  | 0 => [[]]
  | n + 1 => (binLists n).map (List.cons false) ++ (binLists n).map (List.cons true)

/-- The number of bit strings of length `n` on which the trit automaton,
started in state `s`, returns the trit `t` (consuming some prefix). -/
def tritCount (s t n : Nat) : Nat :=
  (binLists n).countP fun l => bbsTritRunBits s l == some t

/-- The contribution of one automaton transition to `tritCount` at string
length `n + 1`: a returned trit contributes all `2^n` suffixes, a state
transition contributes that state's count at length `n`. -/
def stepCount (t n : Nat) : TritStep → Nat
  | .ret r => if r = t then 2 ^ n else 0
  | .toState s' => tritCount s' t n

/-! ## Concrete objects used by witnesses -/

/-- A concrete environment whose streams always yield `0` (accepted at once). -/
def envW : RngEnv :=
  { isaacF := fun _ _ => 0, sfmtF := fun _ _ => 0, md5F := fun _ => (0, 0),
    manualDice := (1, 1), manualRet := 0, randomOrgF := fun _ => 1, fileBytes := none }

/-- The all-zero context. -/
def ctx0 : RngContext := ⟨0, false, 0, 0, 0, 0, 0, 0, 0, 0, 0, 0⟩

/-- The outcome of `rollISAAC envW 1 ctx0`. -/
def outI : RngContext × (Nat × Nat) := (⟨0, false, 0, 2, 0, 0, 0, 0, 0, 0, 2, 0⟩, (1, 1))

/-- The outcome of `rollMersenne envW 1 ctx0`. -/
def outM : RngContext × (Nat × Nat) := (⟨0, false, 0, 0, 0, 0, 2, 0, 0, 0, 2, 0⟩, (1, 1))

/-- Concrete BBS context: modulus `437 = 19 * 23`, seed `2`. -/
def ctxB : RngContext := ⟨0, false, 0, 0, 0, 0, 0, 437, 2, 0, 0, 0⟩

/-- The outcome of `rollBBS 10 ctxB`. -/
def outB : RngContext × (Nat × Nat) := (⟨0, false, 0, 0, 0, 0, 0, 437, 54, 0, 2, 0⟩, (1, 3))

/-! ### Further definitions used by the remaining claims -/

/-- The Mersenne-Twister stream (for the given seed) always accepts within
`fuel` draws from any position: the sufficient condition under which the
fallback backend's rejection loops terminate. -/
def mersenneReady (env : RngEnv) (fuel seed : Nat) : Prop :=
  ∀ p, (findAccept (env.sfmtF seed) fuel p).isSome = true

/-- The byte contents `"1", "9", "3", "6"` of the spec's test dice file. -/
def file1936 : List Nat := [49, 57, 51, 54]

/-- The `k`-th `(face, position)` pair produced by successive `ReadDiceFile`
reads starting from position `pos` of a healthy (`fileBad = false`) file. -/
def nthDiceFromFile (bytes : List Nat) (fuel : Nat) : Nat → Nat → Option (Nat × Nat)
  | 0, pos => readDiceLoop bytes fuel pos false
  | k + 1, pos =>
    match readDiceLoop bytes fuel pos false with
    | none => none
    | some vp => nthDiceFromFile bytes fuel k vp.2

/-- The part of the context that determines the dice sequence of the given
kind (including the Mersenne state, which the fallback substitution can
reach, for the kinds able to produce an out-of-range pair).  The two kinds
that do not support seeding are excluded. -/
def ctxSim : Rng → RngContext → RngContext → Prop
  | RNG_BBS, a, b => a.zSeed = b.zSeed ∧ a.zModulus = b.zModulus ∧
      a.sfmtSeed = b.sfmtSeed ∧ a.sfmtPos = b.sfmtPos
  | RNG_ISAAC, a, b => a.isaacSeed = b.isaacSeed ∧ a.isaacPos = b.isaacPos
  | RNG_MD5, a, b => a.nMD5 = b.nMD5
  | RNG_MERSENNE, a, b => a.sfmtSeed = b.sfmtSeed ∧ a.sfmtPos = b.sfmtPos
  | RNG_FILE, a, b => a.filePos = b.filePos ∧ a.fileBad = b.fileBad ∧
      a.sfmtSeed = b.sfmtSeed ∧ a.sfmtPos = b.sfmtPos
  | _, _, _ => False

/-- Agreement of the configuration-like state that `InitRNGSeed` does not
overwrite for the given kind (the BBS modulus; the file position and the
Mersenne state reachable through the fallback). -/
def ctxPre : Rng → RngContext → RngContext → Prop
  | RNG_BBS, a, b => a.zModulus = b.zModulus ∧ a.sfmtSeed = b.sfmtSeed ∧ a.sfmtPos = b.sfmtPos
  | RNG_FILE, a, b => a.filePos = b.filePos ∧ a.fileBad = b.fileBad ∧
      a.sfmtSeed = b.sfmtSeed ∧ a.sfmtPos = b.sfmtPos
  | RNG_MANUAL, _, _ => False
  | RNG_RANDOM_DOT_ORG, _, _ => False
  | _, _, _ => True

/-- The MD5 retry loop as claim C9 words it: on rejection, first increment
the seed, then recompute the digest from the already-incremented seed (so a
just-rejected seed is never digested again). -/
def md5LoopClaim (f : Nat → Nat × Nat) : Nat → Nat × Nat → Nat → Option ((Nat × Nat) × Nat)
  | 0, h, s => if md5Reject h then none else some (h, s)
  | fuel + 1, h, s =>
    if md5Reject h then md5LoopClaim f fuel (f (s + 1)) (s + 1) else some (h, s)

/-- The MD5 case as claim C9 words it, returning the dice and the final
counter seed (after the one extra increment). -/
def rollMD5Claim (f : Nat → Nat × Nat) (fuel n0 : Nat) : Option ((Nat × Nat) × Nat) :=
  match md5LoopClaim f fuel (f n0) n0 with
  | none => none
  | some hs => some ((dieOf hs.1.1, dieOf hs.1.2), hs.2 + 1)

/-- A digest function whose digest of seed `0` is rejected and all others
accepted. -/
def md5F0 : Nat → Nat × Nat := fun k => if k = 0 then (exp232_l, exp232_l) else (0, 0)

/-- Environment with the `md5F0` digest function. -/
def envMD5 : RngEnv :=
  { isaacF := fun _ _ => 0, sfmtF := fun _ _ => 0, md5F := md5F0,
    manualDice := (1, 1), manualRet := 0, randomOrgF := fun _ => 1, fileBytes := none }

/-- A BBS context in the terminal fault state: seed `0`. -/
def ctxBbsBad : RngContext := ⟨0, false, 0, 0, 0, 0, 0, 437, 0, 0, 0, 0⟩

/-- The modulus stored by a successful `InitRNGBBSFactors` call
(`mpz_mul(rngctx->zModulus, p, q)`). -/
def factorsModulus : FactorsOut → Option Int
  | .fail => none
  | .done p q => some (p * q)

/-! ## Supporting lemmas -/

/-- Specification of the rejection loop: the accepted position is at or after
the start, its draw is below the limit, and every skipped draw was at or
above the limit. -/
theorem findAccept_some {f : Nat → Nat} :
    ∀ fuel i j, findAccept f fuel i = some j →
      i ≤ j ∧ f j < exp232_l ∧ ∀ m, i ≤ m → m < j → exp232_l ≤ f m := by
  intro fuel
  induction fuel with
  | zero => intro i j h; simp [findAccept] at h
  | succ fuel ih =>
    intro i j h
    simp only [findAccept] at h
    split at h
    · obtain ⟨h1, h2, h3⟩ := ih (i + 1) j h
      refine ⟨by omega, h2, ?_⟩
      intro m him hmj
      rcases Nat.eq_or_lt_of_le him with he | hlt
      · subst he; assumption
      · exact h3 m hlt hmj
    · rename_i hacc
      cases h
      exact ⟨Nat.le_refl _, by omega, fun m him hmj => absurd (Nat.lt_of_le_of_lt him hmj) (Nat.lt_irrefl _)⟩

/-- An accepted draw yields a die in `[1, 6]`. -/
theorem dieOf_range {r : Nat} (h : r < exp232_l) : 1 ≤ dieOf r ∧ dieOf r ≤ 6 := by
  unfold dieOf exp232_q
  unfold exp232_l at h
  omega

/-- The fibre of each face value under `dieOf` inside the accepted range
`[0, exp232_l)` is an interval of width `exp232_q`. -/
theorem dieOf_fiber (v : Nat) (h1 : 1 ≤ v) (h6 : v ≤ 6) :
    (Finset.range exp232_l).filter (fun r => dieOf r = v) =
      Finset.Ico ((v - 1) * exp232_q) (v * exp232_q) := by
  ext r
  simp only [Finset.mem_filter, Finset.mem_range, Finset.mem_Ico, dieOf, exp232_q, exp232_l]
  omega

/-- Counting the fibre: each face corresponds to exactly `exp232_q` accepted
raw values. -/
theorem dieOf_fiber_card (v : Nat) (h1 : 1 ≤ v) (h6 : v ≤ 6) :
    ((Finset.range exp232_l).filter (fun r => dieOf r = v)).card = exp232_q := by
  rw [dieOf_fiber v h1 h6, Nat.card_Ico]
  have : 1 ≤ v := h1
  cases v with
  | zero => omega
  | succ v => simp [Nat.succ_mul, Nat.succ_sub_one]

/-- Structure of the ISAAC case: the two dice come from two rejection-sampled
draws of the ISAAC stream and are in range. -/
theorem rollISAAC_spec (env : RngEnv) (fuel : Nat) (ctx : RngContext)
    (out : RngContext × (Nat × Nat)) (h : rollISAAC env fuel ctx = some out) :
    ∃ j0 j1, findAccept (env.isaacF ctx.isaacSeed) fuel ctx.isaacPos = some j0 ∧
      findAccept (env.isaacF ctx.isaacSeed) fuel (j0 + 1) = some j1 ∧
      out.2 = (dieOf (env.isaacF ctx.isaacSeed j0), dieOf (env.isaacF ctx.isaacSeed j1)) ∧
      diceOk out.2 := by
  unfold rollISAAC at h
  cases hj0 : findAccept (env.isaacF ctx.isaacSeed) fuel ctx.isaacPos with
  | none => simp only [hj0] at h; exact Option.noConfusion h
  | some j0 =>
    simp only [hj0] at h
    cases hj1 : findAccept (env.isaacF ctx.isaacSeed) fuel (j0 + 1) with
    | none => simp only [hj1] at h; exact Option.noConfusion h
    | some j1 =>
      simp only [hj1, Option.some.injEq] at h
      subst h
      have r0 := (findAccept_some fuel ctx.isaacPos j0 hj0).2.1
      have r1 := (findAccept_some fuel (j0 + 1) j1 hj1).2.1
      have d0 := dieOf_range r0
      have d1 := dieOf_range r1
      exact ⟨j0, j1, rfl, hj1, rfl, d0.1, d0.2, d1.1, d1.2⟩

/-- Structure of the Mersenne-Twister case: the two dice come from two
rejection-sampled draws of the SFMT stream and are in range. -/
theorem rollMersenne_spec (env : RngEnv) (fuel : Nat) (ctx : RngContext)
    (out : RngContext × (Nat × Nat)) (h : rollMersenne env fuel ctx = some out) :
    ∃ j0 j1, findAccept (env.sfmtF ctx.sfmtSeed) fuel ctx.sfmtPos = some j0 ∧
      findAccept (env.sfmtF ctx.sfmtSeed) fuel (j0 + 1) = some j1 ∧
      out.2 = (dieOf (env.sfmtF ctx.sfmtSeed j0), dieOf (env.sfmtF ctx.sfmtSeed j1)) ∧
      diceOk out.2 := by
  unfold rollMersenne at h
  cases hj0 : findAccept (env.sfmtF ctx.sfmtSeed) fuel ctx.sfmtPos with
  | none => simp only [hj0] at h; exact Option.noConfusion h
  | some j0 =>
    simp only [hj0] at h
    cases hj1 : findAccept (env.sfmtF ctx.sfmtSeed) fuel (j0 + 1) with
    | none => simp only [hj1] at h; exact Option.noConfusion h
    | some j1 =>
      simp only [hj1, Option.some.injEq] at h
      subst h
      have r0 := (findAccept_some fuel ctx.sfmtPos j0 hj0).2.1
      have r1 := (findAccept_some fuel (j0 + 1) j1 hj1).2.1
      have d0 := dieOf_range r0
      have d1 := dieOf_range r1
      exact ⟨j0, j1, rfl, hj1, rfl, d0.1, d0.2, d1.1, d1.2⟩

/-! ## Claim C1 -/

/-- C1: for the ISAAC and Mersenne-Twister backends, every die produced by
`RollDice` comes from rejection sampling with `q = 715827882 = floor(2^32/6)`
and `limit = 6 * q = 4294967292`: every raw draw at or above the limit is
discarded and redrawn, an accepted raw draw `r` yields `1 + r / q`, the die
is always in `[1, 6]`, and each of the 6 faces has exactly `q` accepted raw
values in its fibre. -/
theorem C1_unbiased_rejection_sampling :
    (exp232_q = 2 ^ 32 / 6 ∧ exp232_l = 6 * exp232_q ∧
      exp232_q = 715827882 ∧ exp232_l = 4294967292) ∧
    (∀ (f : Nat → Nat) fuel i j, findAccept f fuel i = some j →
      i ≤ j ∧ f j < exp232_l ∧ ∀ m, i ≤ m → m < j → exp232_l ≤ f m) ∧
    (∀ r, r < exp232_l → 1 ≤ dieOf r ∧ dieOf r ≤ 6 ∧ dieOf r = 1 + r / exp232_q) ∧
    (∀ env fuel ctx out, rollISAAC env fuel ctx = some out →
      ∃ j0 j1, findAccept (env.isaacF ctx.isaacSeed) fuel ctx.isaacPos = some j0 ∧
        findAccept (env.isaacF ctx.isaacSeed) fuel (j0 + 1) = some j1 ∧
        out.2 = (dieOf (env.isaacF ctx.isaacSeed j0), dieOf (env.isaacF ctx.isaacSeed j1)) ∧
        diceOk out.2) ∧
    (∀ env fuel ctx out, rollMersenne env fuel ctx = some out →
      ∃ j0 j1, findAccept (env.sfmtF ctx.sfmtSeed) fuel ctx.sfmtPos = some j0 ∧
        findAccept (env.sfmtF ctx.sfmtSeed) fuel (j0 + 1) = some j1 ∧
        out.2 = (dieOf (env.sfmtF ctx.sfmtSeed j0), dieOf (env.sfmtF ctx.sfmtSeed j1)) ∧
        diceOk out.2) ∧
    (∀ v, 1 ≤ v → v ≤ 6 →
      ((Finset.range exp232_l).filter (fun r => dieOf r = v)).card = exp232_q) := by
  refine ⟨⟨by decide, by decide, rfl, rfl⟩, fun f => findAccept_some, ?_,
    rollISAAC_spec, rollMersenne_spec, dieOf_fiber_card⟩
  intro r hr
  exact ⟨(dieOf_range hr).1, (dieOf_range hr).2, rfl⟩

/-- Witness for C1 at concrete inputs. -/
theorem C1_unbiased_rejection_sampling_witness :
    (0 ≤ 0 ∧ envW.isaacF 0 0 < exp232_l ∧ ∀ m, 0 ≤ m → m < 0 → exp232_l ≤ envW.isaacF 0 m) ∧
    (1 ≤ dieOf 7 ∧ dieOf 7 ≤ 6 ∧ dieOf 7 = 1 + 7 / exp232_q) ∧
    (∃ j0 j1, findAccept (envW.isaacF ctx0.isaacSeed) 1 ctx0.isaacPos = some j0 ∧
      findAccept (envW.isaacF ctx0.isaacSeed) 1 (j0 + 1) = some j1 ∧
      outI.2 = (dieOf (envW.isaacF ctx0.isaacSeed j0), dieOf (envW.isaacF ctx0.isaacSeed j1)) ∧
      diceOk outI.2) ∧
    (∃ j0 j1, findAccept (envW.sfmtF ctx0.sfmtSeed) 1 ctx0.sfmtPos = some j0 ∧
      findAccept (envW.sfmtF ctx0.sfmtSeed) 1 (j0 + 1) = some j1 ∧
      outM.2 = (dieOf (envW.sfmtF ctx0.sfmtSeed j0), dieOf (envW.sfmtF ctx0.sfmtSeed j1)) ∧
      diceOk outM.2) ∧
    ((Finset.range exp232_l).filter (fun r => dieOf r = 3)).card = exp232_q := by
  have T := C1_unbiased_rejection_sampling
  exact ⟨T.2.1 (envW.isaacF 0) 1 0 0 (by decide),
    T.2.2.1 7 (by decide),
    T.2.2.2.1 envW 1 ctx0 outI (by decide),
    T.2.2.2.2.1 envW 1 ctx0 outM (by decide),
    T.2.2.2.2.2 3 (by decide) (by decide)⟩

/-! ## Trit-automaton counting lemmas (claim C2) -/

/-- There are `2^n` bit strings of length `n`. -/
theorem length_binLists : ∀ n, (binLists n).length = 2 ^ n := by
  intro n
  induction n with
  | zero => rfl
  | succ n ih =>
    simp only [binLists, List.length_append, List.length_map, ih, pow_succ]
    omega

/-- The count at length `n + 1` decomposes through one automaton transition
per first bit. -/
theorem tritCount_succ (s t n : Nat) :
    tritCount s t (n + 1) =
      stepCount t n (bbsTritStep s false) + stepCount t n (bbsTritStep s true) := by
  have key : ∀ b : Bool,
      ((binLists n).map (List.cons b)).countP (fun l => bbsTritRunBits s l == some t)
        = stepCount t n (bbsTritStep s b) := by
    intro b
    rw [List.countP_map]
    have e : ((fun l => bbsTritRunBits s l == some t) ∘ List.cons b)
        = fun l => (match bbsTritStep s b with
            | TritStep.ret r => some r
            | TritStep.toState s' => bbsTritRunBits s' l) == some t := rfl
    rw [e]
    cases h : bbsTritStep s b with
    | ret r =>
      simp only [h]
      by_cases hrt : r = t
      · subst hrt
        simp [stepCount, List.countP_true, length_binLists]
      · have : ∀ l : List Bool, ((some r == some t) = true) = False := by
          intro l
          simp [hrt]
        simp only [stepCount, hrt, if_false]
        rw [List.countP_eq_zero.2]
        intro l _
        simp [hrt]
    | toState s' =>
      simp only [h, stepCount, tritCount]
  have e2 : tritCount s t (n + 1)
      = ((binLists n).map (List.cons false)).countP (fun l => bbsTritRunBits s l == some t)
        + ((binLists n).map (List.cons true)).countP (fun l => bbsTritRunBits s l == some t) := by
    unfold tritCount
    show (((binLists n).map (List.cons false) ++ (binLists n).map (List.cons true)).countP _) = _
    rw [List.countP_append]
  rw [e2, key false, key true]

/-- Exact deviation table for the counts from states 1-4: each count differs
from the limiting proportion (`1/3` or `2/3` or `0` of `2^n`) by at most 2,
with the deviation alternating with the parity of `n`. -/
theorem tritCount_table : ∀ n : Nat,
    (3 * tritCount 1 0 n + (2 - n % 2) = 2 * 2 ^ n) ∧
    (3 * tritCount 3 0 n + (1 + n % 2) = 2 ^ n) ∧
    (3 * tritCount 1 1 n + (1 + n % 2) = 2 ^ n) ∧
    (3 * tritCount 3 1 n + (2 - n % 2) = 2 * 2 ^ n) ∧
    (tritCount 1 2 n = 0) ∧ (tritCount 3 2 n = 0) ∧
    (3 * tritCount 2 2 n + (2 - n % 2) = 2 * 2 ^ n) ∧
    (3 * tritCount 4 2 n + (1 + n % 2) = 2 ^ n) ∧
    (3 * tritCount 2 1 n + (1 + n % 2) = 2 ^ n) ∧
    (3 * tritCount 4 1 n + (2 - n % 2) = 2 * 2 ^ n) ∧
    (tritCount 2 0 n = 0) ∧ (tritCount 4 0 n = 0) := by
  intro n
  induction n with
  | zero => decide
  | succ n ih =>
    have s10 : tritCount 1 0 (n + 1) = 2 ^ n + tritCount 3 0 n := by
      rw [tritCount_succ]; rfl
    have s30 : tritCount 3 0 (n + 1) = tritCount 1 0 n + 0 := by
      rw [tritCount_succ]; rfl
    have s11 : tritCount 1 1 (n + 1) = 0 + tritCount 3 1 n := by
      rw [tritCount_succ]; rfl
    have s31 : tritCount 3 1 (n + 1) = tritCount 1 1 n + 2 ^ n := by
      rw [tritCount_succ]; rfl
    have s12 : tritCount 1 2 (n + 1) = 0 + tritCount 3 2 n := by
      rw [tritCount_succ]; rfl
    have s32 : tritCount 3 2 (n + 1) = tritCount 1 2 n + 0 := by
      rw [tritCount_succ]; rfl
    have s22 : tritCount 2 2 (n + 1) = tritCount 4 2 n + 2 ^ n := by
      rw [tritCount_succ]; rfl
    have s42 : tritCount 4 2 (n + 1) = 0 + tritCount 2 2 n := by
      rw [tritCount_succ]; rfl
    have s21 : tritCount 2 1 (n + 1) = tritCount 4 1 n + 0 := by
      rw [tritCount_succ]; rfl
    have s41 : tritCount 4 1 (n + 1) = 2 ^ n + tritCount 2 1 n := by
      rw [tritCount_succ]; rfl
    have s20 : tritCount 2 0 (n + 1) = tritCount 4 0 n + 0 := by
      rw [tritCount_succ]; rfl
    have s40 : tritCount 4 0 (n + 1) = 0 + tritCount 2 0 n := by
      rw [tritCount_succ]; rfl
    obtain ⟨e10, e30, e11, e31, z12, z32, e22, e42, e21, e41, z20, z40⟩ := ih
    refine ⟨?_, ?_, ?_, ?_, ?_, ?_, ?_, ?_, ?_, ?_, ?_, ?_⟩ <;>
      simp only [s10, s30, s11, s31, s12, s32, s22, s42, s21, s41, s20, s40, pow_succ] <;>
      omega

/-- Decomposition at the start state: the first bit moves to state 1 or 2. -/
theorem tritCount_start (t n : Nat) :
    tritCount 0 t (n + 1) = tritCount 1 t n + tritCount 2 t n := by
  rw [tritCount_succ]; rfl

/-- From the start state each trit `t < 3` is returned on a fraction of the
bit strings that is within `4 / 2^n` of exactly `1/3`: this is the dyadic
measure statement that each trit has probability exactly `1/3`. -/
theorem tritCount_third (t n : Nat) (ht : t < 3) :
    3 * tritCount 0 t n ≤ 2 ^ n ∧ 2 ^ n ≤ 3 * tritCount 0 t n + 4 := by
  cases n with
  | zero =>
    interval_cases t <;> exact ⟨by decide, by decide⟩
  | succ n =>
    have h0 := tritCount_start t n
    have tab := tritCount_table n
    obtain ⟨e10, e30, e11, e31, z12, z32, e22, e42, e21, e41, z20, z40⟩ := tab
    rw [h0, pow_succ]
    interval_cases t <;> omega

/-- Every trit the automaton returns (from any state) is in `{0, 1, 2}`. -/
theorem bbsTritRunBits_lt_three :
    ∀ (l : List Bool) (s t : Nat), bbsTritRunBits s l = some t → t < 3 := by
  intro l
  induction l with
  | nil => intro s t h; exact Option.noConfusion h
  | cons b bs ih =>
    intro s t h
    rcases s with _ | _ | _ | _ | _ | s <;> cases b <;>
      simp only [bbsTritRunBits, bbsTritStep] at h <;>
      first
      | (cases h; omega)
      | exact ih _ _ h

/-- Every trit returned by the seed-driven automaton is in `{0, 1, 2}`. -/
theorem BBSGetTrit_lt_three (M : Nat) :
    ∀ fuel st s out, BBSGetTrit M fuel st s = some out → out.1 < 3 := by
  intro fuel
  induction fuel with
  | zero => intro st s out h; exact Option.noConfusion h
  | succ fuel ih =>
    intro st s out h
    rcases st with _ | _ | _ | _ | _ | st <;>
      cases hb : ((BBSGetBit M s).1 == 1) <;>
      simp only [BBSGetTrit, hb, bbsTritStep] at h <;>
      first
      | (cases h; omega)
      | exact ih _ _ _ h

/-- The hard-core bit is a bit. -/
theorem BBSGetBit_lt_two (M s : Nat) : (BBSGetBit M s).1 < 2 :=
  Nat.mod_lt _ (by omega)

/-- Structure of the BBS case on a healthy seed: each die is
`trit + bit * 3 + 1` with a trit in `{0,1,2}` and a bit in `{0,1}`, hence in
`[1, 6]`. -/
theorem rollBBS_spec (fuel : Nat) (ctx : RngContext) (out : RngContext × (Nat × Nat))
    (hchk : ¬ (ctx.zSeed = 0 ∨ ctx.zSeed = 1)) (h : rollBBS fuel ctx = some out) :
    ∃ t0 b0 t1 b1, t0 < 3 ∧ b0 < 2 ∧ t1 < 3 ∧ b1 < 2 ∧
      out.2 = (t0 + b0 * 3 + 1, t1 + b1 * 3 + 1) ∧ diceOk out.2 := by
  unfold rollBBS at h
  rw [if_neg (by simp [BBSCheck, hchk])] at h
  cases h0 : BBSGetTrit ctx.zModulus fuel 0 ctx.zSeed with
  | none => simp only [h0] at h; exact Option.noConfusion h
  | some t0s =>
    simp only [h0] at h
    cases h1 : BBSGetTrit ctx.zModulus fuel 0 (BBSGetBit ctx.zModulus t0s.2).2 with
    | none => simp only [h1] at h; exact Option.noConfusion h
    | some t1s =>
      simp only [h1, Option.some.injEq] at h
      subst h
      have ht0 := BBSGetTrit_lt_three ctx.zModulus fuel 0 ctx.zSeed t0s h0
      have ht1 := BBSGetTrit_lt_three ctx.zModulus fuel 0 _ t1s h1
      have hb0 := BBSGetBit_lt_two ctx.zModulus t0s.2
      have hb1 := BBSGetBit_lt_two ctx.zModulus t1s.2
      refine ⟨t0s.1, (BBSGetBit ctx.zModulus t0s.2).1, t1s.1, (BBSGetBit ctx.zModulus t1s.2).1,
        ht0, hb0, ht1, hb1, rfl, ?_⟩
      simp only [diceOk]
      refine ⟨by omega, by omega, by omega, by omega⟩

/-! ## Claim C2 -/

/-- C2: the trit automaton, driven by fair independent bits, only returns
trits in `{0, 1, 2}`; for each trit `t` the proportion of length-`n` bit
strings on which it returns `t` is within `4 / 2^n` of `1/3` on both sides
(so the set of bit-string prefixes returning `t` has dyadic measure exactly
`1/3`); each BBS die is `trit + bit * 3 + 1` with one additional hard-core
bit; and the map `(trit, bit) ↦ trit + bit * 3 + 1` is a bijection from the
6 trit/bit combinations onto `[1, 6]`. -/
theorem C2_trit_automaton_uniform :
    (∀ (l : List Bool) (t : Nat), bbsTritRunBits 0 l = some t → t < 3) ∧
    (∀ t n, t < 3 → 3 * tritCount 0 t n ≤ 2 ^ n ∧ 2 ^ n ≤ 3 * tritCount 0 t n + 4) ∧
    (∀ fuel ctx out, ¬ (ctx.zSeed = 0 ∨ ctx.zSeed = 1) → rollBBS fuel ctx = some out →
      ∃ t0 b0 t1 b1, t0 < 3 ∧ b0 < 2 ∧ t1 < 3 ∧ b1 < 2 ∧
        out.2 = (t0 + b0 * 3 + 1, t1 + b1 * 3 + 1) ∧ diceOk out.2) ∧
    ((Finset.range 3 ×ˢ Finset.range 2).image (fun p => p.1 + p.2 * 3 + 1)
        = Finset.Icc 1 6) ∧
    (∀ p ∈ Finset.range 3 ×ˢ Finset.range 2, ∀ p' ∈ Finset.range 3 ×ˢ Finset.range 2,
      p.1 + p.2 * 3 + 1 = p'.1 + p'.2 * 3 + 1 → p = p') := by
  refine ⟨fun l t => bbsTritRunBits_lt_three l 0 t,
    fun t n ht => tritCount_third t n ht,
    fun fuel ctx out hchk h => rollBBS_spec fuel ctx out hchk h,
    by decide, by decide⟩

/-- Witness for C2 at concrete inputs. -/
theorem C2_trit_automaton_uniform_witness :
    (0 < 3) ∧
    (3 * tritCount 0 1 4 ≤ 2 ^ 4 ∧ 2 ^ 4 ≤ 3 * tritCount 0 1 4 + 4) ∧
    (∃ t0 b0 t1 b1, t0 < 3 ∧ b0 < 2 ∧ t1 < 3 ∧ b1 < 2 ∧
      outB.2 = (t0 + b0 * 3 + 1, t1 + b1 * 3 + 1) ∧ diceOk outB.2) := by
  have T := C2_trit_automaton_uniform
  exact ⟨T.1 [false, false] 0 (by decide),
    T.2.1 1 4 (by decide),
    T.2.2.1 10 ctxB outB (by decide) (by decide)⟩

/-! ## Shape lemmas for the backend cases -/

/-- A successful `ReadDiceFile` only changes the file position. -/
theorem ReadDiceFile_shape (env : RngEnv) (fuel : Nat) (ctx : RngContext) (vc : Nat × RngContext)
    (h : ReadDiceFile env fuel ctx = some vc) :
    vc.2 = { ctx with filePos := vc.2.filePos } := by
  unfold ReadDiceFile at h
  cases hfb : env.fileBytes with
  | none => simp only [hfb, Option.some.injEq] at h; subst h; rfl
  | some bytes =>
    simp only [hfb] at h
    cases hrl : readDiceLoop bytes fuel ctx.filePos ctx.fileBad with
    | none => simp only [hrl] at h; exact Option.noConfusion h
    | some vp => simp only [hrl, Option.some.injEq] at h; subst h; rfl

/-- Shape of a successful BBS case. -/
theorem rollBBS_shape (fuel : Nat) (ctx : RngContext) (out : RngContext × (Nat × Nat))
    (h : rollBBS fuel ctx = some out) :
    (BBSCheck ctx.zSeed = -1 ∧ out = ({ ctx with zSeed := 0 }, (0, 0))) ∨
    (BBSCheck ctx.zSeed ≠ -1 ∧ ∃ t0s t1s,
      BBSGetTrit ctx.zModulus fuel 0 ctx.zSeed = some t0s ∧
      BBSGetTrit ctx.zModulus fuel 0 (BBSGetBit ctx.zModulus t0s.2).2 = some t1s ∧
      out = ({ ctx with zSeed := (BBSGetBit ctx.zModulus t1s.2).2, c := ctx.c + 2 },
        (t0s.1 + (BBSGetBit ctx.zModulus t0s.2).1 * 3 + 1,
         t1s.1 + (BBSGetBit ctx.zModulus t1s.2).1 * 3 + 1))) := by
  unfold rollBBS at h
  by_cases hchk : BBSCheck ctx.zSeed = -1
  · rw [if_pos hchk] at h
    left
    injection h with h2
    exact ⟨hchk, h2.symm⟩
  · rw [if_neg hchk] at h
    right
    refine ⟨hchk, ?_⟩
    cases h0 : BBSGetTrit ctx.zModulus fuel 0 ctx.zSeed with
    | none => simp only [h0] at h; exact Option.noConfusion h
    | some t0s =>
      simp only [h0] at h
      cases h1 : BBSGetTrit ctx.zModulus fuel 0 (BBSGetBit ctx.zModulus t0s.2).2 with
      | none => simp only [h1] at h; exact Option.noConfusion h
      | some t1s =>
        simp only [h1, Option.some.injEq] at h
        exact ⟨t0s, t1s, rfl, h1, h.symm⟩

/-- Shape of a successful ISAAC case. -/
theorem rollISAAC_shape (env : RngEnv) (fuel : Nat) (ctx : RngContext)
    (out : RngContext × (Nat × Nat)) (h : rollISAAC env fuel ctx = some out) :
    ∃ j0 j1, findAccept (env.isaacF ctx.isaacSeed) fuel ctx.isaacPos = some j0 ∧
      findAccept (env.isaacF ctx.isaacSeed) fuel (j0 + 1) = some j1 ∧
      out = ({ ctx with isaacPos := j1 + 1, c := ctx.c + 2 },
        (dieOf (env.isaacF ctx.isaacSeed j0), dieOf (env.isaacF ctx.isaacSeed j1))) := by
  unfold rollISAAC at h
  cases hj0 : findAccept (env.isaacF ctx.isaacSeed) fuel ctx.isaacPos with
  | none => simp only [hj0] at h; exact Option.noConfusion h
  | some j0 =>
    simp only [hj0] at h
    cases hj1 : findAccept (env.isaacF ctx.isaacSeed) fuel (j0 + 1) with
    | none => simp only [hj1] at h; exact Option.noConfusion h
    | some j1 =>
      simp only [hj1, Option.some.injEq] at h
      exact ⟨j0, j1, rfl, hj1, h.symm⟩

/-- Shape of a successful Mersenne case. -/
theorem rollMersenne_shape (env : RngEnv) (fuel : Nat) (ctx : RngContext)
    (out : RngContext × (Nat × Nat)) (h : rollMersenne env fuel ctx = some out) :
    ∃ j0 j1, findAccept (env.sfmtF ctx.sfmtSeed) fuel ctx.sfmtPos = some j0 ∧
      findAccept (env.sfmtF ctx.sfmtSeed) fuel (j0 + 1) = some j1 ∧
      out = ({ ctx with sfmtPos := j1 + 1, c := ctx.c + 2 },
        (dieOf (env.sfmtF ctx.sfmtSeed j0), dieOf (env.sfmtF ctx.sfmtSeed j1))) := by
  unfold rollMersenne at h
  cases hj0 : findAccept (env.sfmtF ctx.sfmtSeed) fuel ctx.sfmtPos with
  | none => simp only [hj0] at h; exact Option.noConfusion h
  | some j0 =>
    simp only [hj0] at h
    cases hj1 : findAccept (env.sfmtF ctx.sfmtSeed) fuel (j0 + 1) with
    | none => simp only [hj1] at h; exact Option.noConfusion h
    | some j1 =>
      simp only [hj1, Option.some.injEq] at h
      exact ⟨j0, j1, rfl, hj1, h.symm⟩

/-- Shape of a successful MD5 case. -/
theorem rollMD5_shape (env : RngEnv) (fuel : Nat) (ctx : RngContext)
    (out : RngContext × (Nat × Nat)) (h : rollMD5 env fuel ctx = some out) :
    ∃ hs, md5Loop env.md5F fuel (env.md5F ctx.nMD5) ctx.nMD5 = some hs ∧
      out = ({ ctx with nMD5 := hs.2 + 1, c := ctx.c + 2 },
        (dieOf hs.1.1, dieOf hs.1.2)) := by
  unfold rollMD5 at h
  cases hl : md5Loop env.md5F fuel (env.md5F ctx.nMD5) ctx.nMD5 with
  | none => simp only [hl] at h; exact Option.noConfusion h
  | some hs =>
    simp only [hl, Option.some.injEq] at h
    exact ⟨hs, rfl, h.symm⟩

/-- Shape of a successful file case. -/
theorem rollFile_shape (env : RngEnv) (fuel : Nat) (ctx : RngContext)
    (out : RngContext × (Nat × Nat)) (h : rollFile env fuel ctx = some out) :
    ∃ v0 v1, ReadDiceFile env fuel ctx = some v0 ∧ ReadDiceFile env fuel v0.2 = some v1 ∧
      out = ({ v1.2 with c := v1.2.c + 2 }, (v0.1, v1.1)) := by
  unfold rollFile at h
  cases h0 : ReadDiceFile env fuel ctx with
  | none => simp only [h0] at h; exact Option.noConfusion h
  | some v0 =>
    simp only [h0] at h
    cases h1 : ReadDiceFile env fuel v0.2 with
    | none => simp only [h1] at h; exact Option.noConfusion h
    | some v1 =>
      simp only [h1, Option.some.injEq] at h
      exact ⟨v0, v1, rfl, h1, h.symm⟩

/-- An accepted MD5 loop output is itself not rejected. -/
theorem md5Loop_accepted (f : Nat → Nat × Nat) :
    ∀ fuel h s out, md5Loop f fuel h s = some out → ¬ md5Reject out.1 := by
  intro fuel
  induction fuel with
  | zero =>
    intro h s out hl
    unfold md5Loop at hl
    split at hl
    · exact Option.noConfusion hl
    · cases hl; assumption
  | succ fuel ih =>
    intro h s out hl
    unfold md5Loop at hl
    split at hl
    · exact ih _ _ _ hl
    · cases hl; assumption

/-! ## Fallback-policy lemmas (claims C3 and C6) -/

/-- Under `mersenneReady`, the Mersenne case succeeds with in-range dice and
leaves the Mersenne seed unchanged. -/
theorem rollMersenne_ok (env : RngEnv) (fuel : Nat) (ctx : RngContext)
    (h : mersenneReady env fuel ctx.sfmtSeed) :
    ∃ out, rollMersenne env fuel ctx = some out ∧ diceOk out.2 ∧
      out.1.sfmtSeed = ctx.sfmtSeed := by
  obtain ⟨j0, hj0⟩ := Option.isSome_iff_exists.1 (h ctx.sfmtPos)
  obtain ⟨j1, hj1⟩ := Option.isSome_iff_exists.1 (h (j0 + 1))
  have r0 := (findAccept_some fuel ctx.sfmtPos j0 hj0).2.1
  have r1 := (findAccept_some fuel (j0 + 1) j1 hj1).2.1
  have d0 := dieOf_range r0
  have d1 := dieOf_range r1
  refine ⟨({ ctx with sfmtPos := j1 + 1, c := ctx.c + 2 },
    (dieOf (env.sfmtF ctx.sfmtSeed j0), dieOf (env.sfmtF ctx.sfmtSeed j1))), ?_, ?_, rfl⟩
  · unfold rollMersenne
    simp only [hj0, hj1]
  · exact ⟨d0.1, d0.2, d1.1, d1.2⟩

/-- No backend case modifies the Mersenne seed. -/
theorem rollBackend_sfmtSeed (env : RngEnv) (fuel : Nat) :
    ∀ k ctx out, rollBackend env fuel k ctx = some out → out.1.sfmtSeed = ctx.sfmtSeed := by
  intro k ctx out h
  cases k with
  | RNG_BBS =>
    rcases rollBBS_shape fuel ctx out h with ⟨_, ho⟩ | ⟨_, t0s, t1s, _, _, ho⟩ <;>
      (subst ho; rfl)
  | RNG_ISAAC =>
    obtain ⟨j0, j1, _, _, ho⟩ := rollISAAC_shape env fuel ctx out h
    subst ho; rfl
  | RNG_MD5 =>
    obtain ⟨hs, _, ho⟩ := rollMD5_shape env fuel ctx out h
    subst ho; rfl
  | RNG_MERSENNE =>
    obtain ⟨j0, j1, _, _, ho⟩ := rollMersenne_shape env fuel ctx out h
    subst ho; rfl
  | RNG_MANUAL =>
    cases h; rfl
  | RNG_RANDOM_DOT_ORG =>
    cases h
    simp only [rollRDO]
    split <;> rfl
  | RNG_FILE =>
    obtain ⟨v0, v1, h0, h1, ho⟩ := rollFile_shape env fuel ctx out h
    subst ho
    have e0 := ReadDiceFile_shape env fuel ctx v0 h0
    have e1 := ReadDiceFile_shape env fuel v0.2 v1 h1
    show v1.2.sfmtSeed = ctx.sfmtSeed
    rw [e1, e0]

/-- One-step unfolding of `RollDice`. -/
theorem RollDice_succ (env : RngEnv) (df rf : Nat) (k : Rng) (ctx : RngContext) :
    RollDice env df (rf + 1) k ctx =
      if k = RNG_MANUAL then some ⟨k, ctx, env.manualDice, env.manualRet, 0⟩
      else
        match rollBackend env df k ctx with
        | none => none
        | some cd =>
          if diceOk cd.2 then some ⟨k, cd.1, cd.2, 0, 0⟩
          else
            match RollDice env df rf RNG_MERSENNE cd.1 with
            | none => none
            | some res => some ⟨res.rng, res.ctx, res.dice, 0, res.substs + 1⟩ := rfl

/-- Under `mersenneReady`, a `RollDice` call on the Mersenne kind succeeds at
any positive recursion depth, with in-range dice and no substitution. -/
theorem RollDice_mersenne_step (env : RngEnv) (fuel rf : Nat) (ctx' : RngContext)
    (hM : mersenneReady env fuel ctx'.sfmtSeed) :
    ∃ out, rollMersenne env fuel ctx' = some out ∧ diceOk out.2 ∧
      RollDice env fuel (rf + 1) RNG_MERSENNE ctx' = some ⟨RNG_MERSENNE, out.1, out.2, 0, 0⟩ := by
  obtain ⟨out, hout, hok, hseed⟩ := rollMersenne_ok env fuel ctx' hM
  refine ⟨out, hout, hok, ?_⟩
  rw [RollDice_succ]
  rw [if_neg (by decide : ¬ (RNG_MERSENNE = RNG_MANUAL))]
  have hbk : rollBackend env fuel RNG_MERSENNE ctx' = some out := hout
  simp only [hbk, if_pos hok]

/-- Full case analysis of a depth-bounded `RollDice` call under
`mersenneReady` and in-range manual dice: the result does not depend on the
recursion allowance beyond depth 2, and every successful call performs at
most one substitution, substitutes only to the Mersenne kind, and returns
in-range dice. -/
theorem RollDice_depth2 (env : RngEnv) (fuel : Nat) (k : Rng) (ctx : RngContext)
    (hM : mersenneReady env fuel ctx.sfmtSeed) (hman : diceOk env.manualDice) :
    (∀ extra, RollDice env fuel (extra + 2) k ctx = RollDice env fuel 2 k ctx) ∧
    (RollDice env fuel 2 k ctx = none ∨
      ∃ res, RollDice env fuel 2 k ctx = some res ∧ res.substs ≤ 1 ∧ diceOk res.dice ∧
        (res.substs = 1 → res.rng = RNG_MERSENNE)) := by
  have E2 : RollDice env fuel 2 k ctx =
      (if k = RNG_MANUAL then some ⟨k, ctx, env.manualDice, env.manualRet, 0⟩
      else
        match rollBackend env fuel k ctx with
        | none => none
        | some cd =>
          if diceOk cd.2 then some ⟨k, cd.1, cd.2, 0, 0⟩
          else
            match RollDice env fuel 1 RNG_MERSENNE cd.1 with
            | none => none
            | some res => some ⟨res.rng, res.ctx, res.dice, 0, res.substs + 1⟩) :=
    RollDice_succ env fuel 1 k ctx
  have EX : ∀ extra, RollDice env fuel (extra + 2) k ctx =
      (if k = RNG_MANUAL then some ⟨k, ctx, env.manualDice, env.manualRet, 0⟩
      else
        match rollBackend env fuel k ctx with
        | none => none
        | some cd =>
          if diceOk cd.2 then some ⟨k, cd.1, cd.2, 0, 0⟩
          else
            match RollDice env fuel (extra + 1) RNG_MERSENNE cd.1 with
            | none => none
            | some res => some ⟨res.rng, res.ctx, res.dice, 0, res.substs + 1⟩) :=
    fun extra => RollDice_succ env fuel (extra + 1) k ctx
  by_cases hk : k = RNG_MANUAL
  · subst hk
    refine ⟨fun extra => ?_, Or.inr ⟨⟨RNG_MANUAL, ctx, env.manualDice, env.manualRet, 0⟩,
      ?_, Nat.zero_le 1, hman, fun hc => absurd hc (by simp)⟩⟩
    · rw [EX extra, E2]
      simp
    · rw [E2]
      simp
  · cases hb : rollBackend env fuel k ctx with
    | none =>
      refine ⟨fun extra => ?_, Or.inl ?_⟩
      · rw [EX extra, E2]
        simp only [if_neg hk, hb]
      · rw [E2]
        simp only [if_neg hk, hb]
    | some cd =>
      have hseed : cd.1.sfmtSeed = ctx.sfmtSeed := rollBackend_sfmtSeed env fuel k ctx cd hb
      by_cases hd : diceOk cd.2
      · refine ⟨fun extra => ?_, Or.inr ⟨⟨k, cd.1, cd.2, 0, 0⟩, ?_, Nat.zero_le 1, hd,
          fun hc => absurd hc (by simp)⟩⟩
        · rw [EX extra, E2]
          simp only [if_neg hk, hb, if_pos hd]
        · rw [E2]
          simp only [if_neg hk, hb, if_pos hd]
      · have hM' : mersenneReady env fuel cd.1.sfmtSeed := by rw [hseed]; exact hM
        obtain ⟨out1, hout1, hok1, hstep1⟩ := RollDice_mersenne_step env fuel 0 cd.1 hM'
        refine ⟨fun extra => ?_, Or.inr ⟨⟨RNG_MERSENNE, out1.1, out1.2, 0, 1⟩, ?_,
          le_refl 1, hok1, fun _ => rfl⟩⟩
        · obtain ⟨out, hout, hok, hstep⟩ := RollDice_mersenne_step env fuel extra cd.1 hM'
          have : out = out1 := by
            rw [hout] at hout1
            injection hout1
          subst this
          rw [EX extra, E2]
          simp only [if_neg hk, hb, if_neg hd, hstep, hstep1]
        · rw [E2]
          simp only [if_neg hk, hb, if_neg hd, hstep1]

/-! ## Claim C3 -/

/-- C3: under the assumptions that the Mersenne stream accepts (its rejection
loops terminate) and that the external manual dice are in range (the spec
declares them trusted), every successful `RollDice` call performs at most one
substitution and returns in-range dice, a substitution always switches to
`RNG_MERSENNE`; whenever the backend produced an out-of-range pair the call
substitutes exactly once and the retried roll is in range; and granting the
recursion any deeper allowance never changes the result (the retry is not
recursive beyond one substitution). -/
theorem C3_fallback_single_retry (env : RngEnv) (fuel : Nat) (k : Rng) (ctx : RngContext)
    (hM : mersenneReady env fuel ctx.sfmtSeed) (hman : diceOk env.manualDice) :
    (∀ res, RollDice env fuel 2 k ctx = some res →
      res.substs ≤ 1 ∧ diceOk res.dice ∧ (res.substs = 1 → res.rng = RNG_MERSENNE)) ∧
    (∀ cd, k ≠ RNG_MANUAL → rollBackend env fuel k ctx = some cd → ¬ diceOk cd.2 →
      ∃ res, RollDice env fuel 2 k ctx = some res ∧ res.substs = 1 ∧
        res.rng = RNG_MERSENNE ∧ diceOk res.dice) ∧
    (∀ extra, RollDice env fuel (extra + 2) k ctx = RollDice env fuel 2 k ctx) := by
  obtain ⟨hfuel, hres⟩ := RollDice_depth2 env fuel k ctx hM hman
  refine ⟨?_, ?_, hfuel⟩
  · intro res h
    rcases hres with hnone | ⟨res', h', hs, hok, hrng⟩
    · rw [hnone] at h; exact Option.noConfusion h
    · rw [h'] at h
      injection h with h
      subst h
      exact ⟨hs, hok, hrng⟩
  · intro cd hk hb hd
    have hseed := rollBackend_sfmtSeed env fuel k ctx cd hb
    have hM' : mersenneReady env fuel cd.1.sfmtSeed := by rw [hseed]; exact hM
    obtain ⟨out1, hout1, hok1, hstep1⟩ := RollDice_mersenne_step env fuel 0 cd.1 hM'
    refine ⟨⟨RNG_MERSENNE, out1.1, out1.2, 0, 1⟩, ?_, rfl, rfl, hok1⟩
    have e : RollDice env fuel 2 k ctx = RollDice env fuel (1 + 1) k ctx := rfl
    rw [e, RollDice_succ]
    simp only [if_neg hk, hb, if_neg hd, hstep1]

/-- Witness for C3: a file backend with no open file produces the sentinel
pair, and the dispatcher substitutes the Mersenne kind exactly once. -/
theorem C3_fallback_single_retry_witness :
    ∃ res, RollDice envW 2 2 RNG_FILE ctx0 = some res ∧ res.substs = 1 ∧
      res.rng = RNG_MERSENNE ∧ diceOk res.dice := by
  have T := C3_fallback_single_retry envW 2 RNG_FILE ctx0 (fun _ => rfl) (by decide)
  exact T.2.1 (⟨0, false, 0, 0, 0, 0, 0, 0, 0, 0, 2, 0⟩, (diceSentinel, diceSentinel))
    (by decide) (by decide) (by decide)

/-! ## Claim C6 -/

/-- Counterexample to C6: with the BBS kind active and seed `0` (modulus
`437`), the `RollDice` call does not leave the generator selected as BBS and
does not surface an error: it switches to the Mersenne kind via the generic
fallback, returns the in-range pair `(1, 1)` produced by the Mersenne
backend, and returns `0` (success). -/
theorem C6_counterexample :
    RollDice envW 2 2 RNG_BBS ctxBbsBad =
      some ⟨RNG_MERSENNE, ⟨0, false, 0, 0, 0, 0, 2, 437, 0, 0, 2, 0⟩, (1, 1), 0, 1⟩ ∧
    RNG_MERSENNE ≠ RNG_BBS := by
  exact ⟨by decide, by decide⟩

/-- C6 as amended: if `RollDice` runs with the BBS kind while the seed is `0`
or `1`, the BBS branch stores seed `0` and leaves the dice at `(0, 0)`, so
the generic fallback fires: the active kind switches to `RNG_MERSENNE`,
exactly one substitution happens, the retried dice are in range, the stored
BBS seed remains `0`, and the call returns `0` rather than surfacing an
error. -/
theorem C6_bbs_bad_seed_falls_back (env : RngEnv) (fuel : Nat) (ctx : RngContext)
    (hM : mersenneReady env fuel ctx.sfmtSeed) (hseed : ctx.zSeed = 0 ∨ ctx.zSeed = 1) :
    ∃ res, RollDice env fuel 2 RNG_BBS ctx = some res ∧ res.rng = RNG_MERSENNE ∧
      res.substs = 1 ∧ diceOk res.dice ∧ res.ret = 0 ∧ res.ctx.zSeed = 0 := by
  have hchk : BBSCheck ctx.zSeed = -1 := by simp [BBSCheck, hseed]
  have hb : rollBackend env fuel RNG_BBS ctx = some ({ ctx with zSeed := 0 }, (0, 0)) := by
    show rollBBS fuel ctx = _
    unfold rollBBS
    rw [if_pos hchk]
  have hseed' : ({ ctx with zSeed := 0 } : RngContext).sfmtSeed = ctx.sfmtSeed := rfl
  have hM' : mersenneReady env fuel ({ ctx with zSeed := 0 } : RngContext).sfmtSeed := by
    rw [hseed']; exact hM
  obtain ⟨out1, hout1, hok1, hstep1⟩ := RollDice_mersenne_step env fuel 0 _ hM'
  obtain ⟨j0, j1, _, _, hsh⟩ := rollMersenne_shape env fuel _ out1 hout1
  refine ⟨⟨RNG_MERSENNE, out1.1, out1.2, 0, 1⟩, ?_, rfl, rfl, hok1, rfl, ?_⟩
  · have e : RollDice env fuel 2 RNG_BBS ctx = RollDice env fuel (1 + 1) RNG_BBS ctx := rfl
    rw [e, RollDice_succ]
    rw [if_neg (by decide : ¬ (RNG_BBS = RNG_MANUAL))]
    simp only [hb, if_neg (by decide : ¬ diceOk ((0 : Nat), (0 : Nat))), hstep1]
  · rw [hsh]

/-- Witness for the amended C6 at a concrete faulted context. -/
theorem C6_bbs_bad_seed_falls_back_witness :
    ∃ res, RollDice envW 2 2 RNG_BBS ctxBbsBad = some res ∧ res.rng = RNG_MERSENNE ∧
      res.substs = 1 ∧ diceOk res.dice ∧ res.ret = 0 ∧ res.ctx.zSeed = 0 :=
  C6_bbs_bad_seed_falls_back envW 2 ctxBbsBad (fun _ => rfl) (Or.inl rfl)

/-! ## File-reader lemmas (claim C7) -/

/-- One-step unfolding of the healthy-stream read loop. -/
theorem readDiceLoop_step (bytes : List Nat) (fuel pos : Nat) :
    readDiceLoop bytes (fuel + 1) pos false =
      if h : pos < bytes.length then
        (if 49 ≤ bytes.get ⟨pos, h⟩ ∧ bytes.get ⟨pos, h⟩ ≤ 54
          then some (bytes.get ⟨pos, h⟩ - 48, pos + 1)
          else readDiceLoop bytes fuel (pos + 1) false)
      else readDiceLoop bytes fuel 0 false := rfl

/-- A read on a stream in the error state returns the sentinel at once. -/
theorem readDiceLoop_bad (bytes : List Nat) (fuel pos : Nat) :
    readDiceLoop bytes (fuel + 1) pos true = some (diceSentinel, pos) := rfl

/-- A byte in ASCII `'1'..'6'` yields the face `byte - '0'` and advances. -/
theorem readDiceLoop_valid (bytes : List Nat) (fuel pos : Nat) (h : pos < bytes.length)
    (hb : 49 ≤ bytes.get ⟨pos, h⟩ ∧ bytes.get ⟨pos, h⟩ ≤ 54) :
    readDiceLoop bytes (fuel + 1) pos false = some (bytes.get ⟨pos, h⟩ - 48, pos + 1) := by
  rw [readDiceLoop_step, dif_pos h, if_pos hb]

/-- A byte outside ASCII `'1'..'6'` is skipped. -/
theorem readDiceLoop_skip (bytes : List Nat) (fuel pos : Nat) (h : pos < bytes.length)
    (hb : ¬ (49 ≤ bytes.get ⟨pos, h⟩ ∧ bytes.get ⟨pos, h⟩ ≤ 54)) :
    readDiceLoop bytes (fuel + 1) pos false = readDiceLoop bytes fuel (pos + 1) false := by
  rw [readDiceLoop_step, dif_pos h, if_neg hb]

/-- End of file rewinds to position `0` and continues. -/
theorem readDiceLoop_rewind (bytes : List Nat) (fuel pos : Nat) (h : ¬ pos < bytes.length) :
    readDiceLoop bytes (fuel + 1) pos false = readDiceLoop bytes fuel 0 false := by
  rw [readDiceLoop_step, dif_neg h]

/-- On a healthy stream every produced value is a face in `[1, 6]`. -/
theorem readDiceLoop_face (bytes : List Nat) :
    ∀ fuel pos vp, readDiceLoop bytes fuel pos false = some vp →
      1 ≤ vp.1 ∧ vp.1 ≤ 6 := by
  intro fuel
  induction fuel with
  | zero => intro pos vp h; exact Option.noConfusion h
  | succ fuel ih =>
    intro pos vp h
    rw [readDiceLoop_step] at h
    by_cases hp : pos < bytes.length
    · rw [dif_pos hp] at h
      by_cases hb : 49 ≤ bytes.get ⟨pos, hp⟩ ∧ bytes.get ⟨pos, hp⟩ ≤ 54
      · rw [if_pos hb] at h
        injection h with h
        subst h
        simp only
        omega
      · rw [if_neg hb] at h
        exact ih (pos + 1) vp h
    · rw [dif_neg hp] at h
      exact ih 0 vp h

/-- The periodic face/position table for the file `"1936"`. -/
theorem nthDiceFromFile_1936 : ∀ k, nthDiceFromFile file1936 8 k 0 =
    some (if k % 3 = 0 then ((1 : Nat), (1 : Nat))
      else if k % 3 = 1 then (3, 3) else (6, 4)) := by
  have key : ∀ k,
      (nthDiceFromFile file1936 8 k 1 = some (if k % 3 = 0 then ((3 : Nat), (3 : Nat))
        else if k % 3 = 1 then (6, 4) else (1, 1))) ∧
      (nthDiceFromFile file1936 8 k 3 = some (if k % 3 = 0 then ((6 : Nat), (4 : Nat))
        else if k % 3 = 1 then (1, 1) else (3, 3))) ∧
      (nthDiceFromFile file1936 8 k 4 = some (if k % 3 = 0 then ((1 : Nat), (1 : Nat))
        else if k % 3 = 1 then (3, 3) else (6, 4))) := by
    intro k
    induction k with
    | zero => exact ⟨by decide, by decide, by decide⟩
    | succ k ih =>
      obtain ⟨i1, i3, i4⟩ := ih
      have s1 : nthDiceFromFile file1936 8 (k + 1) 1 = nthDiceFromFile file1936 8 k 3 := by
        show (match readDiceLoop file1936 8 1 false with
          | none => none
          | some vp => nthDiceFromFile file1936 8 k vp.2) = _
        rw [show readDiceLoop file1936 8 1 false = some (3, 3) from by decide]
      have s3 : nthDiceFromFile file1936 8 (k + 1) 3 = nthDiceFromFile file1936 8 k 4 := by
        show (match readDiceLoop file1936 8 3 false with
          | none => none
          | some vp => nthDiceFromFile file1936 8 k vp.2) = _
        rw [show readDiceLoop file1936 8 3 false = some (6, 4) from by decide]
      have s4 : nthDiceFromFile file1936 8 (k + 1) 4 = nthDiceFromFile file1936 8 k 1 := by
        show (match readDiceLoop file1936 8 4 false with
          | none => none
          | some vp => nthDiceFromFile file1936 8 k vp.2) = _
        rw [show readDiceLoop file1936 8 4 false = some (1, 1) from by decide]
      rcases (show k % 3 = 0 ∨ k % 3 = 1 ∨ k % 3 = 2 from by omega) with h | h | h
      · have e : (k + 1) % 3 = 1 := by omega
        exact ⟨by rw [s1, i3]; simp [h, e], by rw [s3, i4]; simp [h, e],
          by rw [s4, i1]; simp [h, e]⟩
      · have e : (k + 1) % 3 = 2 := by omega
        exact ⟨by rw [s1, i3]; simp [h, e], by rw [s3, i4]; simp [h, e],
          by rw [s4, i1]; simp [h, e]⟩
      · have e : (k + 1) % 3 = 0 := by omega
        exact ⟨by rw [s1, i3]; simp [h, e], by rw [s3, i4]; simp [h, e],
          by rw [s4, i1]; simp [h, e]⟩
  intro k
  cases k with
  | zero => decide
  | succ k =>
    have s0 : nthDiceFromFile file1936 8 (k + 1) 0 = nthDiceFromFile file1936 8 k 1 := by
      show (match readDiceLoop file1936 8 0 false with
        | none => none
        | some vp => nthDiceFromFile file1936 8 k vp.2) = _
      rw [show readDiceLoop file1936 8 0 false = some (1, 1) from by decide]
    obtain ⟨i1, _, _⟩ := key k
    rcases (show k % 3 = 0 ∨ k % 3 = 1 ∨ k % 3 = 2 from by omega) with h | h | h
    · have e : (k + 1) % 3 = 1 := by omega
      rw [s0, i1]; simp [h, e]
    · have e : (k + 1) % 3 = 2 := by omega
      rw [s0, i1]; simp [h, e]
    · have e : (k + 1) % 3 = 0 := by omega
      rw [s0, i1]; simp [h, e]

/-! ## Claim C7 -/

/-- C7: the file backend reads one byte at a time: no open file or a stream
error yields the sentinel `(unsigned)(-1) = 4294967295`; a byte in ASCII
`'1'..'6'` yields the face `byte - '0'`; other bytes are skipped; end of
file rewinds to the start and continues; every produced face is in `[1, 6]`;
and for the file `"1936"` the face sequence is `1, 3, 6` repeating forever. -/
theorem C7_file_replay :
    (∀ env fuel ctx, env.fileBytes = none → ReadDiceFile env fuel ctx = some (diceSentinel, ctx)) ∧
    (∀ bytes fuel pos, readDiceLoop bytes (fuel + 1) pos true = some (diceSentinel, pos)) ∧
    (∀ bytes fuel pos (h : pos < List.length bytes),
      (49 ≤ bytes.get ⟨pos, h⟩ ∧ bytes.get ⟨pos, h⟩ ≤ 54 →
        readDiceLoop bytes (fuel + 1) pos false = some (bytes.get ⟨pos, h⟩ - 48, pos + 1)) ∧
      (¬ (49 ≤ bytes.get ⟨pos, h⟩ ∧ bytes.get ⟨pos, h⟩ ≤ 54) →
        readDiceLoop bytes (fuel + 1) pos false = readDiceLoop bytes fuel (pos + 1) false)) ∧
    (∀ bytes fuel pos, ¬ pos < List.length bytes →
      readDiceLoop bytes (fuel + 1) pos false = readDiceLoop bytes fuel 0 false) ∧
    (∀ bytes fuel pos vp, readDiceLoop bytes fuel pos false = some vp →
      1 ≤ vp.1 ∧ vp.1 ≤ 6) ∧
    (diceSentinel = 4294967295) ∧
    (∀ k, (nthDiceFromFile file1936 8 k 0).map Prod.fst =
      some (if k % 3 = 0 then 1 else if k % 3 = 1 then 3 else 6)) := by
  refine ⟨?_, readDiceLoop_bad, ?_, readDiceLoop_rewind, fun bytes => readDiceLoop_face bytes,
    rfl, ?_⟩
  · intro env fuel ctx h
    unfold ReadDiceFile
    rw [h]
  · intro bytes fuel pos h
    exact ⟨readDiceLoop_valid bytes fuel pos h, readDiceLoop_skip bytes fuel pos h⟩
  · intro k
    rw [nthDiceFromFile_1936 k]
    rcases (show k % 3 = 0 ∨ k % 3 = 1 ∨ k % 3 = 2 from by omega) with h | h | h <;>
      simp [h]

/-- Witness for C7 at concrete inputs. -/
theorem C7_file_replay_witness :
    (ReadDiceFile envW 3 ctx0 = some (diceSentinel, ctx0)) ∧
    (readDiceLoop file1936 3 5 true = some (diceSentinel, 5)) ∧
    (readDiceLoop file1936 8 0 false = some (file1936.get ⟨0, by decide⟩ - 48, 1)) ∧
    (readDiceLoop file1936 8 1 false = readDiceLoop file1936 7 2 false) ∧
    (readDiceLoop file1936 8 4 false = readDiceLoop file1936 7 0 false) ∧
    (1 ≤ (1, 1).1 ∧ ((1 : Nat), (1 : Nat)).1 ≤ 6) ∧
    ((nthDiceFromFile file1936 8 4 0).map Prod.fst =
      some (if 4 % 3 = 0 then 1 else if 4 % 3 = 1 then 3 else 6)) := by
  have T := C7_file_replay
  exact ⟨T.1 envW 3 ctx0 rfl,
    T.2.1 file1936 2 5,
    (T.2.2.1 file1936 7 0 (by decide)).1 (by decide),
    (T.2.2.1 file1936 7 1 (by decide)).2 (by decide),
    T.2.2.2.1 file1936 7 4 (by decide),
    T.2.2.2.2.1 file1936 8 0 (1, 1) (by decide),
    T.2.2.2.2.2.2 4⟩

/-! ## Initial-seed-check lemmas (claim C5) -/

/-- If every attempt detects a short cycle, the attempt loop exhausts and
fails, storing seed `0`. -/
theorem bbsAttemptLoop_exhaust (M : Nat) :
    ∀ a s, (∀ k, k < a → bbsShortCycle M (s + k) = true) → bbsAttemptLoop M a s = (-1, 0) := by
  intro a
  induction a with
  | zero => intro s _; rfl
  | succ a ih =>
    intro s hall
    unfold bbsAttemptLoop
    have h0 : bbsShortCycle M s = true := by
      have := hall 0 (by omega)
      rwa [Nat.add_zero] at this
    rw [if_pos h0]
    refine ih (s + 1) (fun k hk => ?_)
    have := hall (k + 1) (by omega)
    rwa [show s + (k + 1) = s + 1 + k from by omega] at this

/-- If the first `kk` attempts detect a short cycle and attempt `kk` does
not, the loop succeeds with the seed incremented `kk` times. -/
theorem bbsAttemptLoop_success (M : Nat) :
    ∀ a s kk, kk < a → (∀ j, j < kk → bbsShortCycle M (s + j) = true) →
      bbsShortCycle M (s + kk) = false → bbsAttemptLoop M a s = (0, s + kk) := by
  intro a
  induction a with
  | zero => intro s kk hk; omega
  | succ a ih =>
    intro s kk hk hrej hacc
    unfold bbsAttemptLoop
    cases kk with
    | zero =>
      rw [Nat.add_zero] at hacc
      simp [hacc]
    | succ kk =>
      have h0 : bbsShortCycle M s = true := by
        have := hrej 0 (by omega)
        rwa [Nat.add_zero] at this
      rw [if_pos h0]
      rw [show s + (kk + 1) = s + 1 + kk from by omega]
      refine ih (s + 1) kk (by omega) (fun j hj => ?_) ?_
      · have := hrej (j + 1) (by omega)
        rwa [show s + (j + 1) = s + 1 + j from by omega] at this
      · rwa [show s + 1 + kk = s + (kk + 1) from by omega]

/-- A failing attempt loop always stores seed `0`. -/
theorem bbsAttemptLoop_fail_seed (M : Nat) :
    ∀ a s, (bbsAttemptLoop M a s).1 = -1 → (bbsAttemptLoop M a s).2 = 0 := by
  intro a
  induction a with
  | zero => intro s _; rfl
  | succ a ih =>
    intro s h
    unfold bbsAttemptLoop at h ⊢
    by_cases hc : bbsShortCycle M s = true
    · rw [if_pos hc] at h ⊢
      exact ih (s + 1) h
    · rw [if_neg hc] at h
      simp at h

/-- The short-cycle test is recurrence of the 8-fold-squared reference point
within 16 further squarings. -/
theorem bbsShortCycle_iff (M s : Nat) : bbsShortCycle M s = true ↔
    ∃ i, 1 ≤ i ∧ i ≤ 16 ∧ (bbsSq M)^[i] ((bbsSq M)^[8] s) = (bbsSq M)^[8] s := by
  unfold bbsShortCycle
  rw [List.any_eq_true]
  constructor
  · rintro ⟨i, hi, heq⟩
    rw [List.mem_range] at hi
    rw [beq_iff_eq] at heq
    exact ⟨i + 1, by omega, by omega, heq⟩
  · rintro ⟨i, h1, h16, heq⟩
    refine ⟨i - 1, by rw [List.mem_range]; omega, ?_⟩
    rw [beq_iff_eq, show i - 1 + 1 = i from by omega]
    exact heq

/-! ## Claim C5 -/

/-- C5: `BBSCheckInitialSeed` squares a copy of the seed 8 times to a
reference point and tests for recurrence of that reference within 16 further
squarings; a detected short cycle increments the seed and retries, for at
most 32 attempts; a non-positive initial seed, or exhaustion of all 32
attempts, returns `-1` and stores seed `0`, on which `BBSCheck` always
fails. -/
theorem C5_initial_seed_check (M : Nat) :
    (BBSCheckInitialSeed M 0 = (-1, 0)) ∧
    (∀ s, 1 ≤ s → (∀ k, k < 32 → bbsShortCycle M (s + k) = true) →
      BBSCheckInitialSeed M s = (-1, 0)) ∧
    (∀ s kk, 1 ≤ s → kk < 32 → (∀ j, j < kk → bbsShortCycle M (s + j) = true) →
      bbsShortCycle M (s + kk) = false → BBSCheckInitialSeed M s = (0, s + kk)) ∧
    (∀ s, (BBSCheckInitialSeed M s).1 = -1 →
      (BBSCheckInitialSeed M s).2 = 0 ∧ BBSCheck (BBSCheckInitialSeed M s).2 = -1) ∧
    (∀ s, bbsShortCycle M s = true ↔
      ∃ i, 1 ≤ i ∧ i ≤ 16 ∧ (bbsSq M)^[i] ((bbsSq M)^[8] s) = (bbsSq M)^[8] s) := by
  refine ⟨rfl, ?_, ?_, ?_, bbsShortCycle_iff M⟩
  · intro s hs hall
    unfold BBSCheckInitialSeed
    rw [if_neg (by omega)]
    exact bbsAttemptLoop_exhaust M 32 s hall
  · intro s kk hs hk hrej hacc
    unfold BBSCheckInitialSeed
    rw [if_neg (by omega)]
    exact bbsAttemptLoop_success M 32 s kk hk hrej hacc
  · intro s h
    unfold BBSCheckInitialSeed at h ⊢
    by_cases hs : s = 0
    · rw [if_pos hs] at h ⊢
      exact ⟨rfl, by decide⟩
    · rw [if_neg hs] at h ⊢
      have h2 := bbsAttemptLoop_fail_seed M 32 s h
      refine ⟨h2, ?_⟩
      rw [h2]
      decide

/-- Witness for C5: modulus `3` short-cycles every seed (exhaustion), while
modulus `437` accepts seed `2` at the first attempt. -/
theorem C5_initial_seed_check_witness :
    (BBSCheckInitialSeed 3 0 = (-1, 0)) ∧
    (BBSCheckInitialSeed 3 5 = (-1, 0)) ∧
    (BBSCheckInitialSeed 437 2 = (0, 2 + 0)) ∧
    ((BBSCheckInitialSeed 3 7).2 = 0 ∧ BBSCheck (BBSCheckInitialSeed 3 7).2 = -1) ∧
    (∃ i, 1 ≤ i ∧ i ≤ 16 ∧ (bbsSq 3)^[i] ((bbsSq 3)^[8] 5) = (bbsSq 3)^[8] 5) := by
  have T3 := C5_initial_seed_check 3
  have T437 := C5_initial_seed_check 437
  exact ⟨T3.1,
    T3.2.1 5 (by decide) (by decide),
    T437.2.2.1 2 0 (by decide) (by decide) (fun j hj => absurd hj (Nat.not_lt_zero j)) (by decide),
    T3.2.2.2.1 7 (by decide),
    (T3.2.2.2.2 5).1 (by decide)⟩

/-! ## Factor-validation lemmas (claims C4 and C10) -/

/-- `BBSFindGood` returns the smallest good integer strictly above its
input. -/
theorem BBSFindGood_spec :
    ∀ fuel (x y : Int), BBSFindGood fuel x = some y →
      x < y ∧ BBSGood y = true ∧ ∀ z, x < z → z < y → BBSGood z = false := by
  intro fuel
  induction fuel with
  | zero => intro x y h; exact Option.noConfusion h
  | succ fuel ih =>
    intro x y h
    unfold BBSFindGood at h
    by_cases hg : BBSGood (x + 1) = true
    · rw [if_pos hg] at h
      injection h with h
      subst h
      exact ⟨by omega, hg, fun z h1 h2 => absurd h2 (by omega)⟩
    · rw [if_neg hg] at h
      obtain ⟨h1, h2, h3⟩ := ih (x + 1) y h
      refine ⟨by omega, h2, fun z hz1 hz2 => ?_⟩
      rcases eq_or_lt_of_le (show x + 1 ≤ z from by omega) with he | hlt
      · exact he ▸ Bool.eq_false_iff.mpr hg
      · exact h3 z hlt hz2

/-- Case analysis of the second-factor fixup: either the parsed factor is
good and distinct from `p` and is kept, or it is replaced by a good factor
strictly above it, distinct from `p`, skipping only bad integers and
possibly `p` itself. -/
theorem fixupQ_spec (fuel : Nat) (p q0 q1 : Int) (h : fixupQ fuel p q0 = some q1) :
    (BBSGood q0 = true ∧ p ≠ q0 ∧ q1 = q0) ∨
    ((BBSGood q0 = false ∨ p = q0) ∧ BBSGood q1 = true ∧ p ≠ q1 ∧ q0 < q1 ∧
      ∀ z, q0 < z → z < q1 → BBSGood z = false ∨ z = p) := by
  unfold fixupQ at h
  by_cases hcond : (!BBSGood q0 || (p == q0)) = true
  · rw [if_pos hcond] at h
    right
    have hc : BBSGood q0 = false ∨ p = q0 := by
      rcases Bool.or_eq_true_iff.1 hcond with h1 | h1
      · exact Or.inl (by simpa using h1)
      · exact Or.inr (by simpa [beq_iff_eq] using h1)
    cases hfa : BBSFindGood fuel q0 with
    | none => simp only [hfa] at h; exact Option.noConfusion h
    | some qa =>
      simp only [hfa] at h
      obtain ⟨ha1, ha2, ha3⟩ := BBSFindGood_spec fuel q0 qa hfa
      by_cases hpq : (p == qa) = true
      · rw [if_pos hpq] at h
        have hpeq : p = qa := by simpa [beq_iff_eq] using hpq
        obtain ⟨hb1, hb2, hb3⟩ := BBSFindGood_spec fuel qa q1 h
        refine ⟨hc, hb2, by omega, by omega, ?_⟩
        intro z hz1 hz2
        rcases lt_trichotomy z qa with hlt | heq | hgt
        · exact Or.inl (ha3 z hz1 hlt)
        · exact Or.inr (heq.trans hpeq.symm)
        · exact Or.inl (hb3 z hgt hz2)
      · rw [if_neg hpq] at h
        injection h with h
        subst h
        have hpne : p ≠ qa := by simpa [beq_iff_eq] using hpq
        exact ⟨hc, ha2, hpne, ha1, fun z hz1 hz2 => Or.inl (ha3 z hz1 hz2)⟩
  · rw [if_neg hcond] at h
    injection h with h
    subst h
    left
    simp only [Bool.or_eq_true, Bool.not_eq_true', beq_iff_eq] at hcond
    push_neg at hcond
    exact ⟨by simpa using hcond.1, hcond.2, rfl⟩

/-! ## Claim C4 -/

/-- Counterexample to C4: the input factors `"19"` and `"19"` are both good
(so by the claim both would be kept), yet the call replaces the second by
`23`: an already-good input factor is not kept when it equals the first. -/
theorem C4_counterexample :
    BBSGood 19 = true ∧
    InitRNGBBSFactors 100 (some 19) (some 19) = some (FactorsOut.done 19 23) ∧
    (23 : Int) ≠ 19 := by
  exact ⟨by decide, by decide, by decide⟩

/-- C4 as amended: for parsable positive inputs, a successful call returns
`0` with the modulus the exact product of two distinct good factors; the
first factor is kept iff good, else replaced by the smallest good integer
strictly above it; the second is kept iff good *and distinct from the
(possibly replaced) first*; otherwise it is replaced by a good factor
strictly above it, skipping only bad integers and possibly the first factor
(the re-search that forces distinctness). -/
theorem C4_factor_validation (fuel : Nat) (p0 q0 : Int) (hp : 1 ≤ p0) (hq : 1 ≤ q0)
    (out : FactorsOut) (h : InitRNGBBSFactors fuel (some p0) (some q0) = some out) :
    ∃ p1 q1, out = FactorsOut.done p1 q1 ∧ factorsModulus out = some (p1 * q1) ∧
      BBSGood p1 = true ∧ BBSGood q1 = true ∧ p1 ≠ q1 ∧
      (BBSGood p0 = true → p1 = p0) ∧
      (BBSGood p0 = false → p0 < p1 ∧ ∀ z, p0 < z → z < p1 → BBSGood z = false) ∧
      (BBSGood q0 = true → q0 ≠ p1 → q1 = q0) ∧
      ((BBSGood q0 = false ∨ q0 = p1) → q0 < q1 ∧
        ∀ z, q0 < z → z < q1 → BBSGood z = false ∨ z = p1) := by
  simp only [InitRNGBBSFactors] at h
  have hlt : ¬ (p0 < 1) := by omega
  rw [if_neg hlt, if_neg hlt] at h
  cases hp1 : (if BBSGood p0 then some p0 else BBSFindGood fuel p0) with
  | none => simp only [hp1] at h; exact Option.noConfusion h
  | some p1 =>
    simp only [hp1] at h
    cases hq1 : fixupQ fuel p1 q0 with
    | none => simp only [hq1] at h; exact Option.noConfusion h
    | some q1 =>
      simp only [hq1] at h
      injection h with h
      subst h
      have hpgood : BBSGood p1 = true ∧ (BBSGood p0 = true → p1 = p0) ∧
          (BBSGood p0 = false → p0 < p1 ∧ ∀ z, p0 < z → z < p1 → BBSGood z = false) := by
        by_cases hg : BBSGood p0 = true
        · rw [if_pos hg] at hp1
          injection hp1 with hp1
          subst hp1
          exact ⟨hg, fun _ => rfl, fun hb => absurd hg (by simp [hb])⟩
        · rw [if_neg hg] at hp1
          obtain ⟨h1, h2, h3⟩ := BBSFindGood_spec fuel p0 p1 hp1
          exact ⟨h2, fun ht => absurd ht hg, fun _ => ⟨h1, h3⟩⟩
      rcases fixupQ_spec fuel p1 q0 q1 hq1 with ⟨hg, hne, he⟩ | ⟨hc, hgq, hne, hlt, hskip⟩
      · subst he
        refine ⟨p1, q1, rfl, rfl, hpgood.1, hg, hne,
          hpgood.2.1, hpgood.2.2, fun _ _ => rfl, fun hcon => ?_⟩
        rcases hcon with hb | hb
        · exact absurd hg (by simp [hb])
        · exact absurd hb.symm hne
      · refine ⟨p1, q1, rfl, rfl, hpgood.1, hgq, hne,
          hpgood.2.1, hpgood.2.2, fun hgq0 hne0 => ?_, fun _ => ⟨hlt, hskip⟩⟩
        rcases hc with hb | hb
        · exact absurd hgq0 (by simp [hb])
        · exact absurd hb.symm hne0

/-- Witness for the amended C4: the spec's test inputs `4` and `9` are both
replaced, producing the distinct good factors `19` and `23`. -/
theorem C4_factor_validation_witness :
    ∃ p1 q1, FactorsOut.done 19 23 = FactorsOut.done p1 q1 ∧
      factorsModulus (FactorsOut.done 19 23) = some (p1 * q1) ∧
      BBSGood p1 = true ∧ BBSGood q1 = true ∧ p1 ≠ q1 ∧
      (BBSGood 4 = true → p1 = 4) ∧
      (BBSGood 4 = false → 4 < p1 ∧ ∀ z, 4 < z → z < p1 → BBSGood z = false) ∧
      (BBSGood 9 = true → (9 : Int) ≠ p1 → q1 = 9) ∧
      ((BBSGood 9 = false ∨ (9 : Int) = p1) → 9 < q1 ∧
        ∀ z, 9 < z → z < q1 → BBSGood z = false ∨ z = p1) :=
  C4_factor_validation 100 4 9 (by decide) (by decide) (FactorsOut.done 19 23) (by decide)

/-! ## Claim C10 -/

/-- C10: `InitRNGBBSFactors` re-tests the sign of the first factor after
parsing the second (dice.c line 191), so a positive first factor with *any*
parsable second factor (in particular a strictly negative one) never yields
the `-1` error, whereas a non-positive first factor always yields `-1`
(before any state is touched; in the model, `fail` carries no modulus). -/
theorem C10_second_factor_sign_unchecked (fuel : Nat) (p0 q0 : Int) :
    (1 ≤ p0 → InitRNGBBSFactors fuel (some p0) (some q0) ≠ some FactorsOut.fail) ∧
    (p0 < 1 → InitRNGBBSFactors fuel (some p0) (some q0) = some FactorsOut.fail) := by
  constructor
  · intro hp
    simp only [InitRNGBBSFactors]
    have hlt : ¬ (p0 < 1) := by omega
    rw [if_neg hlt, if_neg hlt]
    cases hp1 : (if BBSGood p0 then some p0 else BBSFindGood fuel p0) with
    | none => simp
    | some p1 =>
      cases hq1 : fixupQ fuel p1 q0 with
      | none => simp [hq1]
      | some q1 => simp [hq1]
  · intro hp
    simp only [InitRNGBBSFactors]
    rw [if_pos (show p0 < 1 from hp)]

/-- Witness for C10: first factor `23` with negative second factor `-5`
succeeds (the search replaces `-5` by `19`), while the symmetric call with
first factor `-5` fails with `-1`. -/
theorem C10_second_factor_sign_unchecked_witness :
    (InitRNGBBSFactors 100 (some 23) (some (-5)) ≠ some FactorsOut.fail) ∧
    ((-5 : Int) < 0) ∧
    (InitRNGBBSFactors 100 (some 23) (some (-5))
      = some (FactorsOut.done 23 19)) ∧
    (InitRNGBBSFactors 100 (some (-5)) (some 23) = some FactorsOut.fail) := by
  exact ⟨(C10_second_factor_sign_unchecked 100 23 (-5)).1 (by decide), by decide, by decide,
    (C10_second_factor_sign_unchecked 100 (-5) 23).2 (by decide)⟩

/-! ## MD5 retry-loop lemmas (claim C9) -/

/-- An accepted digest pair exits the loop immediately at any fuel. -/
theorem md5Loop_no_reject (f : Nat → Nat × Nat) (fuel : Nat) (h : Nat × Nat) (s : Nat)
    (hacc : ¬ md5Reject h) : md5Loop f fuel h s = some (h, s) := by
  cases fuel with
  | zero => unfold md5Loop; rw [if_neg hacc]
  | succ fuel => unfold md5Loop; rw [if_neg hacc]

/-- A rejected pair makes the loop body recompute the digest from the
*current* seed and only then increment it. -/
theorem md5Loop_reject_step (f : Nat → Nat × Nat) (fuel : Nat) (h : Nat × Nat) (s : Nat)
    (hrej : md5Reject h) :
    md5Loop f (fuel + 1) h s = md5Loop f fuel (f s) (s + 1) := by
  conv_lhs => rw [md5Loop]
  rw [if_pos hrej]

/-- The corresponding digest-call trace equation. -/
theorem md5LoopCalls_reject_step (f : Nat → Nat × Nat) (fuel : Nat) (h : Nat × Nat) (s : Nat)
    (hrej : md5Reject h) :
    md5LoopCalls f (fuel + 1) h s = s :: md5LoopCalls f fuel (f s) (s + 1) := by
  conv_lhs => rw [md5LoopCalls]
  rw [if_pos hrej]

/-- If digests of `t .. t+e-1` are rejected and the digest of `t+e` is
accepted, the loop started at `(f t, t + 1)` accepts `f (t + e)` and leaves
the seed at `t + e + 1`. -/
theorem md5Loop_accept_at (f : Nat → Nat × Nat) :
    ∀ e t fuel, (∀ j, j < e → md5Reject (f (t + j))) → ¬ md5Reject (f (t + e)) →
      e ≤ fuel → md5Loop f fuel (f t) (t + 1) = some (f (t + e), t + e + 1) := by
  intro e
  induction e with
  | zero =>
    intro t fuel _ hacc _
    rw [Nat.add_zero] at hacc
    rw [md5Loop_no_reject f fuel (f t) (t + 1) hacc]
    simp
  | succ e ih =>
    intro t fuel hrej hacc hfuel
    cases fuel with
    | zero => omega
    | succ fuel =>
      have h0 : md5Reject (f t) := by
        have := hrej 0 (by omega)
        rwa [Nat.add_zero] at this
      rw [md5Loop_reject_step f fuel (f t) (t + 1) h0]
      have e1 : md5Loop f fuel (f (t + 1)) (t + 1 + 1) = some (f (t + 1 + e), t + 1 + e + 1) := by
        refine ih (t + 1) fuel (fun j hj => ?_) ?_ (by omega)
        · have := hrej (j + 1) (by omega)
          rwa [show t + (j + 1) = t + 1 + j from by omega] at this
        · rwa [show t + 1 + e = t + (e + 1) from by omega]
      rw [e1, show t + 1 + e = t + (e + 1) from by omega]

/-! ## Claim C9 -/

/-- Counterexample to C9: with a digest function rejecting only seed `0`,
the loop's first retry digests seed `0` again — the very seed just rejected
(digest-call trace `[0, 1]` after the initial call on `0`) — and the final
stored counter is `3`, whereas the claim's description (increment before
recomputing, never re-digesting a rejected seed) yields final counter `2`. -/
theorem C9_counterexample :
    md5Reject (md5F0 0) ∧
    md5LoopCalls md5F0 5 (md5F0 0) 0 = [0, 1] ∧
    rollMD5 envMD5 5 ctx0 = some (⟨0, false, 0, 0, 3, 0, 0, 0, 0, 0, 2, 0⟩, (1, 1)) ∧
    rollMD5Claim md5F0 5 0 = some ((1, 1), 2) ∧
    (3 : Nat) ≠ 2 :=
  ⟨by decide, by decide, by decide, by decide, by decide⟩

/-- C9 as amended: each MD5 roll digests the current 32-bit counter seed and
splits the digest into two halves; an accepted first digest leaves the
counter at `seed + 1`; on rejection, each loop body recomputes the digest
with the *current* seed and only then increments it — so the first retry
re-digests the just-rejected seed (and rejects it again) — and when the
first accepted digest is that of `seed + k` (`k ≥ 1`), the counter ends at
`seed + k + 2`; the accepted pair is always two in-range dice. -/
theorem C9_md5_retry (env : RngEnv) (fuel : Nat) (ctx : RngContext) :
    (¬ md5Reject (env.md5F ctx.nMD5) →
      rollMD5 env fuel ctx = some ({ ctx with nMD5 := ctx.nMD5 + 1, c := ctx.c + 2 },
        (dieOf (env.md5F ctx.nMD5).1, dieOf (env.md5F ctx.nMD5).2))) ∧
    (∀ h s, md5Reject h →
      md5Loop env.md5F (fuel + 1) h s = md5Loop env.md5F fuel (env.md5F s) (s + 1)) ∧
    (∀ h s, md5Reject h →
      md5LoopCalls env.md5F (fuel + 1) h s = s :: md5LoopCalls env.md5F fuel (env.md5F s) (s + 1)) ∧
    (∀ k, md5Reject (env.md5F ctx.nMD5) → 1 ≤ k →
      (∀ j, j < k → md5Reject (env.md5F (ctx.nMD5 + j))) →
      ¬ md5Reject (env.md5F (ctx.nMD5 + k)) → k + 1 ≤ fuel →
      rollMD5 env fuel ctx = some ({ ctx with nMD5 := ctx.nMD5 + k + 2, c := ctx.c + 2 },
        (dieOf (env.md5F (ctx.nMD5 + k)).1, dieOf (env.md5F (ctx.nMD5 + k)).2))) ∧
    (∀ out, rollMD5 env fuel ctx = some out → diceOk out.2) := by
  refine ⟨?_, md5Loop_reject_step env.md5F fuel, md5LoopCalls_reject_step env.md5F fuel,
    ?_, ?_⟩
  · intro hacc
    unfold rollMD5
    rw [md5Loop_no_reject env.md5F fuel (env.md5F ctx.nMD5) ctx.nMD5 hacc]
  · intro k hrej0 hk hrej hacc hfuel
    unfold rollMD5
    cases fuel with
    | zero => omega
    | succ fuel =>
      rw [md5Loop_reject_step env.md5F fuel (env.md5F ctx.nMD5) ctx.nMD5 hrej0]
      rw [md5Loop_accept_at env.md5F k ctx.nMD5 fuel hrej hacc (by omega)]
  · intro out h
    obtain ⟨hs, hl, ho⟩ := rollMD5_shape env fuel ctx out h
    have hacc := md5Loop_accepted env.md5F fuel (env.md5F ctx.nMD5) ctx.nMD5 hs hl
    subst ho
    unfold md5Reject at hacc
    push_neg at hacc
    have d0 := dieOf_range (by omega : hs.1.1 < exp232_l)
    have d1 := dieOf_range (by omega : hs.1.2 < exp232_l)
    exact ⟨d0.1, d0.2, d1.1, d1.2⟩

/-- Witness for the amended C9 at the concrete rejecting digest function. -/
theorem C9_md5_retry_witness :
    rollMD5 envMD5 5 ctx0 = some ({ ctx0 with nMD5 := ctx0.nMD5 + 1 + 2, c := ctx0.c + 2 },
      (dieOf (envMD5.md5F (ctx0.nMD5 + 1)).1, dieOf (envMD5.md5F (ctx0.nMD5 + 1)).2)) :=
  (C9_md5_retry envMD5 5 ctx0).2.2.2.1 1 (by decide) (by decide) (by decide) (by decide)
    (by decide)

/-! ## Seed-determinism lemmas (claim C8) -/

/-- The ISAAC case depends only on the ISAAC seed and position. -/
theorem rollISAAC_congr (env : RngEnv) (df : Nat) (a b : RngContext)
    (h1 : a.isaacSeed = b.isaacSeed) (h2 : a.isaacPos = b.isaacPos) :
    rollISAAC env df b = Option.map
      (fun oa => ({ b with isaacPos := oa.1.isaacPos, c := b.c + 2 }, oa.2))
      (rollISAAC env df a) := by
  unfold rollISAAC
  rw [← h1, ← h2]
  cases hj0 : findAccept (env.isaacF a.isaacSeed) df a.isaacPos with
  | none => rfl
  | some j0 =>
    dsimp only
    cases hj1 : findAccept (env.isaacF a.isaacSeed) df (j0 + 1) with
    | none => rfl
    | some j1 => simp

/-- The Mersenne case depends only on the Mersenne seed and position. -/
theorem rollMersenne_congr (env : RngEnv) (df : Nat) (a b : RngContext)
    (h1 : a.sfmtSeed = b.sfmtSeed) (h2 : a.sfmtPos = b.sfmtPos) :
    rollMersenne env df b = Option.map
      (fun oa => ({ b with sfmtPos := oa.1.sfmtPos, c := b.c + 2 }, oa.2))
      (rollMersenne env df a) := by
  unfold rollMersenne
  rw [← h1, ← h2]
  cases hj0 : findAccept (env.sfmtF a.sfmtSeed) df a.sfmtPos with
  | none => rfl
  | some j0 =>
    dsimp only
    cases hj1 : findAccept (env.sfmtF a.sfmtSeed) df (j0 + 1) with
    | none => rfl
    | some j1 => simp

/-- The MD5 case depends only on the digest counter seed. -/
theorem rollMD5_congr (env : RngEnv) (df : Nat) (a b : RngContext)
    (h1 : a.nMD5 = b.nMD5) :
    rollMD5 env df b = Option.map
      (fun oa => ({ b with nMD5 := oa.1.nMD5, c := b.c + 2 }, oa.2))
      (rollMD5 env df a) := by
  unfold rollMD5
  rw [← h1]
  cases hl : md5Loop env.md5F df (env.md5F a.nMD5) a.nMD5 with
  | none => rfl
  | some hs => simp

/-- The BBS case depends only on the BBS seed and modulus. -/
theorem rollBBS_congr (df : Nat) (a b : RngContext)
    (h1 : a.zSeed = b.zSeed) (h2 : a.zModulus = b.zModulus) :
    rollBBS df b = Option.map
      (fun oa => ({ b with zSeed := oa.1.zSeed, c := b.c + (oa.1.c - a.c) }, oa.2))
      (rollBBS df a) := by
  unfold rollBBS
  rw [← h1, ← h2]
  by_cases hchk : BBSCheck a.zSeed = -1
  · rw [if_pos hchk, if_pos hchk]
    simp [Nat.sub_self]
  · rw [if_neg hchk, if_neg hchk]
    cases h0 : BBSGetTrit a.zModulus df 0 a.zSeed with
    | none => rfl
    | some t0s =>
      dsimp only
      cases h1t : BBSGetTrit a.zModulus df 0 (BBSGetBit a.zModulus t0s.2).2 with
      | none => rfl
      | some t1s => simp [Nat.add_sub_cancel_left]

/-- `ReadDiceFile` depends only on the file position and error flag. -/
theorem ReadDiceFile_congr (env : RngEnv) (df : Nat) (a b : RngContext)
    (h1 : a.filePos = b.filePos) (h2 : a.fileBad = b.fileBad) :
    ReadDiceFile env df b = Option.map
      (fun va => (va.1, { b with filePos := va.2.filePos }))
      (ReadDiceFile env df a) := by
  unfold ReadDiceFile
  cases env.fileBytes with
  | none => simp [h1]
  | some bytes =>
    dsimp only
    rw [← h1, ← h2]
    cases hrl : readDiceLoop bytes df a.filePos a.fileBad with
    | none => rfl
    | some vp => simp

/-- The file case depends only on the file position and error flag. -/
theorem rollFile_congr (env : RngEnv) (df : Nat) (a b : RngContext)
    (h1 : a.filePos = b.filePos) (h2 : a.fileBad = b.fileBad) :
    rollFile env df b = Option.map
      (fun oa => ({ b with filePos := oa.1.filePos, c := b.c + (oa.1.c - a.c) }, oa.2))
      (rollFile env df a) := by
  unfold rollFile
  rw [ReadDiceFile_congr env df a b h1 h2]
  cases h0 : ReadDiceFile env df a with
  | none => rfl
  | some v0 =>
    have e0 := ReadDiceFile_shape env df a v0 h0
    simp only [Option.map_some']
    have h1' : v0.2.filePos = ({ b with filePos := v0.2.filePos } : RngContext).filePos := rfl
    have h2' : v0.2.fileBad = ({ b with filePos := v0.2.filePos } : RngContext).fileBad := by
      rw [e0]
      exact h2
    rw [ReadDiceFile_congr env df v0.2 ({ b with filePos := v0.2.filePos }) h1' h2']
    cases h1r : ReadDiceFile env df v0.2 with
    | none => rfl
    | some v1 =>
      have e1 := ReadDiceFile_shape env df v0.2 v1 h1r
      have hc1 : v1.2.c = a.c := by rw [e1, e0]
      simp only [Option.map_some']
      simp [hc1, Nat.add_sub_cancel_left]

/-- Combining step: if the two backends produced the same dice with related
contexts, the two `RollDice` calls agree (using the induction hypothesis for
the fallback recursion). -/
theorem RollDice_sim_combine (env : RngEnv) (df rf : Nat)
    (ih : ∀ k a b, ctxSim k a b →
      (RollDice env df rf k a = none ∧ RollDice env df rf k b = none) ∨
      (∃ ra rb, RollDice env df rf k a = some ra ∧ RollDice env df rf k b = some rb ∧
        ra.rng = rb.rng ∧ ra.dice = rb.dice ∧ ctxSim ra.rng ra.ctx rb.ctx))
    (k : Rng) (hk : ¬ k = RNG_MANUAL) (a b ca cb : RngContext) (d : Nat × Nat)
    (hba : rollBackend env df k a = some (ca, d)) (hbb : rollBackend env df k b = some (cb, d))
    (hsim' : diceOk d → ctxSim k ca cb) (hsimM : ¬ diceOk d → ctxSim RNG_MERSENNE ca cb) :
    (RollDice env df (rf + 1) k a = none ∧ RollDice env df (rf + 1) k b = none) ∨
    (∃ ra rb, RollDice env df (rf + 1) k a = some ra ∧ RollDice env df (rf + 1) k b = some rb ∧
      ra.rng = rb.rng ∧ ra.dice = rb.dice ∧ ctxSim ra.rng ra.ctx rb.ctx) := by
  by_cases hd : diceOk d
  · right
    refine ⟨⟨k, ca, d, 0, 0⟩, ⟨k, cb, d, 0, 0⟩, ?_, ?_, rfl, rfl, hsim' hd⟩
    · rw [RollDice_succ, if_neg hk]
      simp only [hba, if_pos hd]
    · rw [RollDice_succ, if_neg hk]
      simp only [hbb, if_pos hd]
  · rcases ih RNG_MERSENNE ca cb (hsimM hd) with ⟨hna, hnb⟩ | ⟨ra, rb, hra, hrb, he1, he2, he3⟩
    · left
      constructor
      · rw [RollDice_succ, if_neg hk]
        simp only [hba, if_neg hd, hna]
      · rw [RollDice_succ, if_neg hk]
        simp only [hbb, if_neg hd, hnb]
    · right
      refine ⟨⟨ra.rng, ra.ctx, ra.dice, 0, ra.substs + 1⟩,
        ⟨rb.rng, rb.ctx, rb.dice, 0, rb.substs + 1⟩, ?_, ?_, he1, he2, he3⟩
      · rw [RollDice_succ, if_neg hk]
        simp only [hba, if_neg hd, hra]
      · rw [RollDice_succ, if_neg hk]
        simp only [hbb, if_neg hd, hrb]

/-- Both `RollDice` calls diverge when both backends do. -/
theorem RollDice_none_both (env : RngEnv) (df rf : Nat) (k : Rng) (hk : ¬ k = RNG_MANUAL)
    (a b : RngContext) (hna : rollBackend env df k a = none)
    (hnb : rollBackend env df k b = none) :
    RollDice env df (rf + 1) k a = none ∧ RollDice env df (rf + 1) k b = none := by
  constructor
  · rw [RollDice_succ, if_neg hk]
    simp only [hna]
  · rw [RollDice_succ, if_neg hk]
    simp only [hnb]

/-- Main similarity invariant: two contexts agreeing on the state relevant
to the active kind produce the same dice, the same resulting kind, and
remain in agreement, at every recursion depth. -/
theorem RollDice_sim (env : RngEnv) (df : Nat) :
    ∀ rf k a b, ctxSim k a b →
      (RollDice env df rf k a = none ∧ RollDice env df rf k b = none) ∨
      (∃ ra rb, RollDice env df rf k a = some ra ∧ RollDice env df rf k b = some rb ∧
        ra.rng = rb.rng ∧ ra.dice = rb.dice ∧ ctxSim ra.rng ra.ctx rb.ctx) := by
  intro rf
  induction rf with
  | zero => intro k a b _; exact Or.inl ⟨rfl, rfl⟩
  | succ rf ih =>
    intro k a b hsim
    cases k with
    | RNG_MANUAL => exact hsim.elim
    | RNG_RANDOM_DOT_ORG => exact hsim.elim
    | RNG_ISAAC =>
      obtain ⟨h1, h2⟩ := hsim
      have hc := rollISAAC_congr env df a b h1 h2
      cases ha : rollISAAC env df a with
      | none =>
        rw [ha] at hc
        simp only [Option.map_none'] at hc
        exact Or.inl (RollDice_none_both env df rf RNG_ISAAC (by decide) a b ha hc)
      | some oa =>
        rw [ha] at hc
        simp only [Option.map_some'] at hc
        obtain ⟨ca, d⟩ := oa
        obtain ⟨j0, j1, hj0, hj1, hsh⟩ := rollISAAC_shape env df a (ca, d) ha
        injection hsh with hsh1 hsh2
        subst hsh1
        subst hsh2
        have r0 := (findAccept_some df a.isaacPos j0 hj0).2.1
        have r1 := (findAccept_some df (j0 + 1) j1 hj1).2.1
        have hok : diceOk (dieOf (env.isaacF a.isaacSeed j0), dieOf (env.isaacF a.isaacSeed j1)) :=
          ⟨(dieOf_range r0).1, (dieOf_range r0).2, (dieOf_range r1).1, (dieOf_range r1).2⟩
        exact RollDice_sim_combine env df rf ih RNG_ISAAC (by decide) a b _ _ _ ha hc
          (fun _ => ⟨h1, rfl⟩) (fun hnd => absurd hok hnd)
    | RNG_MERSENNE =>
      obtain ⟨h1, h2⟩ := hsim
      have hc := rollMersenne_congr env df a b h1 h2
      cases ha : rollMersenne env df a with
      | none =>
        rw [ha] at hc
        simp only [Option.map_none'] at hc
        exact Or.inl (RollDice_none_both env df rf RNG_MERSENNE (by decide) a b ha hc)
      | some oa =>
        rw [ha] at hc
        simp only [Option.map_some'] at hc
        obtain ⟨ca, d⟩ := oa
        obtain ⟨j0, j1, hj0, hj1, hsh⟩ := rollMersenne_shape env df a (ca, d) ha
        injection hsh with hsh1 hsh2
        subst hsh1
        subst hsh2
        have r0 := (findAccept_some df a.sfmtPos j0 hj0).2.1
        have r1 := (findAccept_some df (j0 + 1) j1 hj1).2.1
        have hok : diceOk (dieOf (env.sfmtF a.sfmtSeed j0), dieOf (env.sfmtF a.sfmtSeed j1)) :=
          ⟨(dieOf_range r0).1, (dieOf_range r0).2, (dieOf_range r1).1, (dieOf_range r1).2⟩
        exact RollDice_sim_combine env df rf ih RNG_MERSENNE (by decide) a b _ _ _ ha hc
          (fun _ => ⟨h1, rfl⟩) (fun hnd => absurd hok hnd)
    | RNG_MD5 =>
      have h1 : a.nMD5 = b.nMD5 := hsim
      have hc := rollMD5_congr env df a b h1
      cases ha : rollMD5 env df a with
      | none =>
        rw [ha] at hc
        simp only [Option.map_none'] at hc
        exact Or.inl (RollDice_none_both env df rf RNG_MD5 (by decide) a b ha hc)
      | some oa =>
        rw [ha] at hc
        simp only [Option.map_some'] at hc
        obtain ⟨ca, d⟩ := oa
        obtain ⟨hs, hl, hsh⟩ := rollMD5_shape env df a (ca, d) ha
        injection hsh with hsh1 hsh2
        subst hsh1
        subst hsh2
        have hacc := md5Loop_accepted env.md5F df (env.md5F a.nMD5) a.nMD5 hs hl
        unfold md5Reject at hacc
        push_neg at hacc
        have hok : diceOk (dieOf hs.1.1, dieOf hs.1.2) :=
          ⟨(dieOf_range (by omega : hs.1.1 < exp232_l)).1,
           (dieOf_range (by omega : hs.1.1 < exp232_l)).2,
           (dieOf_range (by omega : hs.1.2 < exp232_l)).1,
           (dieOf_range (by omega : hs.1.2 < exp232_l)).2⟩
        exact RollDice_sim_combine env df rf ih RNG_MD5 (by decide) a b _ _ _ ha hc
          (fun _ => rfl) (fun hnd => absurd hok hnd)
    | RNG_BBS =>
      obtain ⟨h1, h2, h3, h4⟩ := hsim
      have hc := rollBBS_congr df a b h1 h2
      cases ha : rollBBS df a with
      | none =>
        rw [ha] at hc
        simp only [Option.map_none'] at hc
        exact Or.inl (RollDice_none_both env df rf RNG_BBS (by decide) a b ha hc)
      | some oa =>
        rw [ha] at hc
        simp only [Option.map_some'] at hc
        obtain ⟨ca, d⟩ := oa
        rcases rollBBS_shape df a (ca, d) ha with ⟨hchk, hsh⟩ | ⟨hchk, t0s, t1s, h0, h1t, hsh⟩
        · injection hsh with hsh1 hsh2
          subst hsh1
          subst hsh2
          exact RollDice_sim_combine env df rf ih RNG_BBS (by decide) a b _ _ _ ha hc
            (fun hd => absurd hd (by decide)) (fun _ => ⟨h3, h4⟩)
        · injection hsh with hsh1 hsh2
          subst hsh1
          subst hsh2
          have ht0 := BBSGetTrit_lt_three a.zModulus df 0 a.zSeed t0s h0
          have ht1 := BBSGetTrit_lt_three a.zModulus df 0 _ t1s h1t
          have hb0 := BBSGetBit_lt_two a.zModulus t0s.2
          have hb1 := BBSGetBit_lt_two a.zModulus t1s.2
          have hok : diceOk (t0s.1 + (BBSGetBit a.zModulus t0s.2).1 * 3 + 1,
              t1s.1 + (BBSGetBit a.zModulus t1s.2).1 * 3 + 1) :=
            ⟨by omega, by omega, by omega, by omega⟩
          exact RollDice_sim_combine env df rf ih RNG_BBS (by decide) a b _ _ _ ha hc
            (fun _ => ⟨rfl, h2, h3, h4⟩) (fun hnd => absurd hok hnd)
    | RNG_FILE =>
      obtain ⟨h1, h2, h3, h4⟩ := hsim
      have hc := rollFile_congr env df a b h1 h2
      cases ha : rollFile env df a with
      | none =>
        rw [ha] at hc
        simp only [Option.map_none'] at hc
        exact Or.inl (RollDice_none_both env df rf RNG_FILE (by decide) a b ha hc)
      | some oa =>
        rw [ha] at hc
        simp only [Option.map_some'] at hc
        obtain ⟨ca, d⟩ := oa
        obtain ⟨v0, v1, hr0, hr1, hsh⟩ := rollFile_shape env df a (ca, d) ha
        injection hsh with hsh1 hsh2
        subst hsh1
        subst hsh2
        have e0 := ReadDiceFile_shape env df a v0 hr0
        have e1 := ReadDiceFile_shape env df v0.2 v1 hr1
        have hfb : v1.2.fileBad = a.fileBad := by rw [e1, e0]
        have hss : v1.2.sfmtSeed = a.sfmtSeed := by rw [e1, e0]
        have hsp : v1.2.sfmtPos = a.sfmtPos := by rw [e1, e0]
        exact RollDice_sim_combine env df rf ih RNG_FILE (by decide) a b _ _ _ ha hc
          (fun _ => ⟨rfl, hfb.trans h2, hss.trans h3, hsp.trans h4⟩)
          (fun _ => ⟨hss.trans h3, hsp.trans h4⟩)

/-- The full dice sequence is determined by the similarity class of the
context. -/
theorem rollSeqDice_sim (env : RngEnv) (df rf : Nat) :
    ∀ rounds k a b, ctxSim k a b →
      rollSeqDice env df rf rounds k a = rollSeqDice env df rf rounds k b := by
  intro rounds
  induction rounds with
  | zero => intro k a b _; rfl
  | succ rounds ih =>
    intro k a b hsim
    have eseq : ∀ c : RngContext, rollSeqDice env df rf (rounds + 1) k c =
        (match RollDice env df rf k c with
        | none => none
        | some res =>
          match rollSeqDice env df rf rounds res.rng res.ctx with
          | none => none
          | some l => some (res.dice :: l)) := fun c => rfl
    rcases RollDice_sim env df rf k a b hsim with ⟨hna, hnb⟩ | ⟨ra, rb, hra, hrb, he1, he2, he3⟩
    · rw [eseq a, eseq b, hna, hnb]
    · rw [eseq a, eseq b, hra, hrb]
      dsimp only
      rw [he1, he2, ih rb.rng ra.ctx rb.ctx (he1 ▸ he3)]

/-- After seeding with the same value, contexts agreeing on the
configuration not overwritten by `InitRNGSeed` are similar. -/
theorem InitRNGSeed_sim (n : Nat) (k : Rng) (a b : RngContext) (hpre : ctxPre k a b) :
    ctxSim k (InitRNGSeed n k a) (InitRNGSeed n k b) := by
  cases k with
  | RNG_MANUAL => exact hpre.elim
  | RNG_RANDOM_DOT_ORG => exact hpre.elim
  | RNG_BBS =>
    obtain ⟨hm, hs1, hs2⟩ := hpre
    refine ⟨?_, hm, hs1, hs2⟩
    show (BBSCheckInitialSeed a.zModulus n).2 = (BBSCheckInitialSeed b.zModulus n).2
    rw [hm]
  | RNG_ISAAC => exact ⟨rfl, rfl⟩
  | RNG_MD5 => rfl
  | RNG_MERSENNE => exact ⟨rfl, rfl⟩
  | RNG_FILE => exact ⟨hpre.1, hpre.2.1, hpre.2.2.1, hpre.2.2.2⟩

/-! ## Claim C8 -/

/-- C8: for every kind that supports seeding (every kind except manual entry
and random.org), two contexts that agree on the configuration state not
overwritten by seeding (the BBS modulus; the file position/flag; and, for
the kinds whose rolls can reach the fallback, the Mersenne state) produce
identical sequences of dice pairs after `InitRNGSeed` with the same seed
value: the seeded roll sequence is a deterministic function of the seed and
the roll count. -/
theorem C8_seed_determinism (env : RngEnv) (df rf n rounds : Nat) (k : Rng)
    (_hk1 : k ≠ RNG_MANUAL) (_hk2 : k ≠ RNG_RANDOM_DOT_ORG) (a b : RngContext)
    (hpre : ctxPre k a b) :
    rollSeqDice env df rf rounds k (InitRNGSeed n k a)
      = rollSeqDice env df rf rounds k (InitRNGSeed n k b) :=
  rollSeqDice_sim env df rf rounds k (InitRNGSeed n k a) (InitRNGSeed n k b)
    (InitRNGSeed_sim n k a b hpre)

/-- Witness for C8: two contexts differing in every backend state still
produce the same ISAAC dice sequence after seeding with `7`. -/
theorem C8_seed_determinism_witness :
    rollSeqDice envW 2 2 3 RNG_ISAAC (InitRNGSeed 7 RNG_ISAAC ctx0)
      = rollSeqDice envW 2 2 3 RNG_ISAAC (InitRNGSeed 7 RNG_ISAAC ctxB) :=
  C8_seed_determinism envW 2 2 7 3 RNG_ISAAC (by decide) (by decide) ctx0 ctxB trivial
